import Mathlib

/-
Verification of the core utilities of the school-ai API repository:
the blueprint mark allocator (services/openai_helper.py), the tolerant
JSON extraction routine (utils/json_parser.py), the question-paper
section-mark recomputation (utils/json_parser.py), and the deterministic
knowledge-point identifier generator (services/openai_service.py).

Python integers are modelled as Lean Int (they are arbitrary precision).
Python floats are modelled as exact rational values of IEEE-754 binary64
numbers, with explicit round-to-nearest-even rounding at each operation;
subnormal results never arise for the inputs handled here and the
subnormal rounding granularity is not modelled.  An operation that raises
a Python exception is modelled by an Option/Except value of none/error.
-/

attribute [local semireducible] Rat.mul Rat.inv Rat.add Rat.sub Rat.ofScientific

namespace SchoolAI

/-! Python float model -/

/-- Round a rational to the nearest integer, ties to even.  This is the
behaviour of Python's built-in round applied to the exact value of a
float. -/
def pyRoundHalfEven (q : ℚ) : ℤ :=
  if q - (⌊q⌋ : ℚ) < 1/2 then ⌊q⌋
  else if 1/2 < q - (⌊q⌋ : ℚ) then ⌊q⌋ + 1
  else if ⌊q⌋ % 2 = 0 then ⌊q⌋ else ⌊q⌋ + 1

/-- Fueled base-2 logarithm, structurally recursive (and shallow enough)
so that it reduces inside the kernel: each step strips 32 bits, a final
linear pass handles the remainder. -/
def log2Fuel : ℕ → ℕ → ℕ
  | 0, _ => 0
  | fuel + 1, n =>
    if 2 ^ 32 ≤ n then log2Fuel fuel (n / 2 ^ 32) + 32
    else if 2 ≤ n then log2Fuel fuel (n / 2) + 1
    else 0

/-- Base-2 logarithm of a natural number (0 for 0 and 1). -/
def natLog2 (n : ℕ) : ℕ := log2Fuel n n

/-- Fueled fast exponentiation 2^k over ℕ, shallow enough to reduce
everywhere. -/
def twoPowAux : ℕ → ℕ → ℕ
  | 0, _ => 1
  | _ + 1, 0 => 1
  | fuel + 1, k =>
    let h := twoPowAux fuel (k / 2)
    if k % 2 = 0 then h * h else 2 * (h * h)

/-- 2^k over ℕ. -/
def natTwoPow (k : ℕ) : ℕ := twoPowAux k k

/-- The rational number 2^k for an integer k. -/
def twoPowQ (k : ℤ) : ℚ :=
  if 0 ≤ k then ((natTwoPow k.toNat : ℕ) : ℚ)
  else 1 / ((natTwoPow (-k).toNat : ℕ) : ℚ)

/-- For q > 0, an integer g with 2^(g-1) < q < 2^(g+1), computed from the
bit lengths of numerator and denominator. -/
def ratLog2Est (q : ℚ) : ℤ :=
  (natLog2 q.num.natAbs : ℤ) - (natLog2 q.den : ℤ)

/-- The binary exponent used to round q > 0 to binary64 precision. -/
def ratExp (q : ℚ) : ℤ :=
  if q < twoPowQ (ratLog2Est q) then ratLog2Est q - 1
  else if twoPowQ (ratLog2Est q + 1) ≤ q then ratLog2Est q + 1
  else ratLog2Est q

/-- The value of a positive rational rounded to 53 significant binary
digits, ties to even. -/
def rPosVal (q : ℚ) : ℚ :=
  (pyRoundHalfEven (q * twoPowQ (52 - ratExp q)) : ℚ) * twoPowQ (ratExp q - 52)

/-- Round a positive rational to the nearest IEEE-754 binary64 value
(ties to even), as an exact rational; none models overflow to infinity.
Subnormal granularity is not modelled (inputs here never reach it). -/
def roundPosToDouble (q : ℚ) : Option ℚ :=
  if rPosVal q < twoPowQ 1024 then some (rPosVal q) else none

/-- Round any rational to the nearest binary64 value; none models
overflow (which Python surfaces as OverflowError when converting an int,
or when rounding an infinite product). -/
def roundToDouble (q : ℚ) : Option ℚ :=
  if q = 0 then some 0
  else if 0 < q then roundPosToDouble q
  else (roundPosToDouble (-q)).map (fun x => -x)

/-- Conversion of a Python int to float; raises OverflowError (none) when
the integer is outside binary64 range. -/
def intToFloat (t : ℤ) : Option ℚ := roundToDouble (t : ℚ)

/-- Product of two Python floats, correctly rounded. -/
def pyFloatMul (a b : ℚ) : Option ℚ := roundToDouble (a * b)

/-- The exact value of a Python float literal. -/
def floatLit (q : ℚ) : ℚ := (roundToDouble q).getD 0

/-! Blueprint allocator, from services/openai_helper.py -/

/-- The five question categories. -/
inductive Cat | MCQ | VSA | SA | LA | CASE
deriving DecidableEq, Repr

/-- The five sections A..E. -/
inductive Sec | A | B | C | D | E
deriving DecidableEq, Repr

/-- MARKS_PER_QUESTION dictionary. -/
def MARKS_PER_QUESTION : Cat → ℤ
  | .MCQ => 1 | .VSA => 2 | .SA => 3 | .LA => 5 | .CASE => 4

/-- SECTION_MAP dictionary. -/
def SECTION_MAP : Sec → Cat
  | .A => .MCQ | .B => .VSA | .C => .SA | .D => .LA | .E => .CASE

/-- SECTION_DISTRIBUTION dictionary: the float literals 0.15, 0.15,
0.25, 0.25, 0.20. -/
def SECTION_DISTRIBUTION : Sec → ℚ
  | .A => floatLit (15/100)
  | .B => floatLit (15/100)
  | .C => floatLit (25/100)
  | .D => floatLit (25/100)
  | .E => floatLit (20/100)

/-- A mapping from the five sections to integers (a five-key Python
dict). -/
structure SecMap where
  vA : ℤ
  vB : ℤ
  vC : ℤ
  vD : ℤ
  vE : ℤ
deriving DecidableEq, Repr

/-- Look up a section in a SecMap. -/
def SecMap.get (m : SecMap) : Sec → ℤ
  | .A => m.vA | .B => m.vB | .C => m.vC | .D => m.vD | .E => m.vE

/-- The allocated_marks dict comprehension: round(total_marks * pct) per
section; none models an OverflowError on the int-to-float conversion. -/
def allocatedMarks (total : ℤ) : Option SecMap := do
  let ft ← intToFloat total
  let pA ← pyFloatMul ft (SECTION_DISTRIBUTION .A)
  let pB ← pyFloatMul ft (SECTION_DISTRIBUTION .B)
  let pC ← pyFloatMul ft (SECTION_DISTRIBUTION .C)
  let pD ← pyFloatMul ft (SECTION_DISTRIBUTION .D)
  let pE ← pyFloatMul ft (SECTION_DISTRIBUTION .E)
  pure ⟨pyRoundHalfEven pA, pyRoundHalfEven pB, pyRoundHalfEven pC,
        pyRoundHalfEven pD, pyRoundHalfEven pE⟩

/-- The questions_per_section dict comprehension:
max(1, allocated // per_question_marks).  Python // on ints is floor
division, Int.fdiv. -/
def questionCounts (am : SecMap) : Sec → ℤ := fun s =>
  max 1 (Int.fdiv (am.get s) (MARKS_PER_QUESTION (SECTION_MAP s)))

/-- actual_marks: the weighted sum of the question counts. -/
def actualMarks (qs : Sec → ℤ) : ℤ :=
  qs .A * MARKS_PER_QUESTION (SECTION_MAP .A)
  + qs .B * MARKS_PER_QUESTION (SECTION_MAP .B)
  + qs .C * MARKS_PER_QUESTION (SECTION_MAP .C)
  + qs .D * MARKS_PER_QUESTION (SECTION_MAP .D)
  + qs .E * MARKS_PER_QUESTION (SECTION_MAP .E)

/-- The question counts after the mismatch adjustment: the signed
difference is added to section A when nonzero. -/
def finalCounts (total : ℤ) (am : SecMap) : Sec → ℤ :=
  let qs := questionCounts am
  let diff := total - actualMarks qs
  if diff ≠ 0 then (fun s => if s = .A then qs .A + diff else qs s) else qs

/-- The result dictionary of allocate_marks_and_generate_blueprint. -/
structure BlueprintResult where
  total_marks : ℤ
  qA : ℤ
  qB : ℤ
  qC : ℤ
  qD : ℤ
  qE : ℤ
  mMCQ : ℤ
  mVSA : ℤ
  mSA : ℤ
  mLA : ℤ
  mCASE : ℤ
  diffEasy : String
  diffMedium : String
  diffHard : String
  skillsCovered : List String
deriving DecidableEq, Repr

/-- Build the final result from the allocated marks (the pure tail of the
function after the float step). -/
def buildResult (total : ℤ) (am : SecMap) : BlueprintResult :=
  let fc := finalCounts total am
  { total_marks := total
    qA := fc .A, qB := fc .B, qC := fc .C, qD := fc .D, qE := fc .E
    mMCQ := fc .A * MARKS_PER_QUESTION (SECTION_MAP .A)
    mVSA := fc .B * MARKS_PER_QUESTION (SECTION_MAP .B)
    mSA := fc .C * MARKS_PER_QUESTION (SECTION_MAP .C)
    mLA := fc .D * MARKS_PER_QUESTION (SECTION_MAP .D)
    mCASE := fc .E * MARKS_PER_QUESTION (SECTION_MAP .E)
    diffEasy := "40%", diffMedium := "40%", diffHard := "20%"
    skillsCovered := [] }

/-- allocate_marks_and_generate_blueprint; none models a raised
exception. -/
def allocate_marks_and_generate_blueprint (total : ℤ) :
    Option BlueprintResult :=
  (allocatedMarks total).map (buildResult total)

/-! Support lemmas for the allocator -/

theorem log2Fuel_spec (fuel : ℕ) : ∀ n, 1 ≤ n → n ≤ fuel →
    2 ^ log2Fuel fuel n ≤ n ∧ n < 2 ^ (log2Fuel fuel n + 1) := by
  induction fuel with
  | zero => intro n h1 h2; omega
  | succ f ih =>
    intro n h1 h2
    simp only [log2Fuel]
    by_cases h32 : 2 ^ 32 ≤ n
    · rw [if_pos h32]
      have hd : 0 < (2:ℕ) ^ 32 := by positivity
      have hrec := ih (n / 2 ^ 32)
        ((Nat.one_le_div_iff hd).mpr h32)
        (by
          have := Nat.div_lt_self (by omega : 0 < n) (by norm_num : 1 < 2 ^ 32)
          omega)
      constructor
      · rw [pow_add]
        exact (Nat.le_div_iff_mul_le hd).mp hrec.1
      · have := (Nat.div_lt_iff_lt_mul hd).mp hrec.2
        calc n < 2 ^ (log2Fuel f (n / 2 ^ 32) + 1) * 2 ^ 32 := this
        _ = 2 ^ (log2Fuel f (n / 2 ^ 32) + 32 + 1) := by ring
    · rw [if_neg h32]
      by_cases h2 : 2 ≤ n
      · rw [if_pos h2]
        have hd : 0 < (2:ℕ) := by norm_num
        have hrec := ih (n / 2)
          ((Nat.one_le_div_iff hd).mpr h2)
          (by
            have := Nat.div_lt_self (by omega : 0 < n) (by norm_num : 1 < 2)
            omega)
        constructor
        · rw [pow_add]
          exact (Nat.le_div_iff_mul_le hd).mp hrec.1
        · have := (Nat.div_lt_iff_lt_mul hd).mp hrec.2
          calc n < 2 ^ (log2Fuel f (n / 2) + 1) * 2 := this
          _ = 2 ^ (log2Fuel f (n / 2) + 1 + 1) := by ring
      · rw [if_neg h2]
        have : n = 1 := by omega
        subst this
        simp

theorem natLog2_spec (n : ℕ) (h : 1 ≤ n) :
    2 ^ natLog2 n ≤ n ∧ n < 2 ^ (natLog2 n + 1) :=
  log2Fuel_spec n n h le_rfl

theorem twoPowAux_eq (fuel : ℕ) : ∀ k, k ≤ fuel → twoPowAux fuel k = 2 ^ k := by
  induction fuel with
  | zero =>
    intro k hk
    have : k = 0 := by omega
    subst this
    rfl
  | succ f ih =>
    intro k hk
    cases k with
    | zero => rfl
    | succ k' =>
      simp only [twoPowAux]
      rw [ih ((k' + 1) / 2) (by omega)]
      by_cases hp : (k' + 1) % 2 = 0
      · rw [if_pos hp, ← pow_add]
        congr 1
        omega
      · rw [if_neg hp]
        rw [show (2:ℕ) * (2 ^ ((k' + 1) / 2) * 2 ^ ((k' + 1) / 2))
            = 2 ^ ((k' + 1) / 2 + (k' + 1) / 2 + 1) by rw [pow_succ, pow_add]; ring]
        congr 1
        omega

theorem natTwoPow_eq (k : ℕ) : natTwoPow k = 2 ^ k := twoPowAux_eq k k le_rfl

theorem twoPowQ_eq (k : ℤ) : twoPowQ k = (2:ℚ) ^ k := by
  unfold twoPowQ
  by_cases hk : 0 ≤ k
  · rw [if_pos hk, natTwoPow_eq]
    push_cast
    rw [← zpow_natCast]
    congr 1
    omega
  · rw [if_neg hk, natTwoPow_eq]
    push_cast
    rw [← zpow_natCast, one_div, ← zpow_neg]
    congr 1
    omega

theorem twoPowQ_pos (k : ℤ) : 0 < twoPowQ k := by
  rw [twoPowQ_eq]
  positivity

theorem pyRound_le (q : ℚ) : (pyRoundHalfEven q : ℚ) ≤ q + 1 := by
  unfold pyRoundHalfEven
  have hf := Int.floor_le q
  split
  · linarith
  · split
    · push_cast
      linarith
    · split
      · linarith
      · push_cast
        linarith

theorem pyRound_ge_floor (q : ℚ) : (⌊q⌋ : ℤ) ≤ pyRoundHalfEven q := by
  unfold pyRoundHalfEven
  split
  · exact le_rfl
  · split
    · omega
    · split
      · exact le_rfl
      · omega

theorem ratLog2Est_bounds (q : ℚ) (hq : 0 < q) :
    (2:ℚ) ^ (ratLog2Est q - 1) < q ∧ q < (2:ℚ) ^ (ratLog2Est q + 1) := by
  have hnum : 0 < q.num := Rat.num_pos.mpr hq
  have ha1 : 1 ≤ q.num.natAbs := Int.natAbs_pos.mpr (ne_of_gt hnum)
  have hb1 : 1 ≤ q.den := q.den_pos
  obtain ⟨hA1, hA2⟩ := natLog2_spec q.num.natAbs ha1
  obtain ⟨hB1, hB2⟩ := natLog2_spec q.den hb1
  have hbQ : (0:ℚ) < (q.den : ℚ) := by exact_mod_cast hb1
  have hab : ((q.num.natAbs : ℕ) : ℚ) = q * (q.den : ℚ) := by
    have h1 : ((q.num.natAbs : ℕ) : ℚ) = ((q.num.natAbs : ℤ) : ℚ) :=
      (Int.cast_natCast _).symm
    have h2 : ((q.num.natAbs : ℤ) : ℚ) = (q.num : ℚ) := by
      rw [Int.natAbs_of_nonneg hnum.le]
    rw [h1, h2, Rat.mul_den_eq_num]
  have castA1 : ((2 ^ natLog2 q.num.natAbs : ℕ) : ℚ) ≤ ((q.num.natAbs : ℕ) : ℚ) := by
    exact_mod_cast hA1
  have castA2 : ((q.num.natAbs : ℕ) : ℚ) < ((2 ^ (natLog2 q.num.natAbs + 1) : ℕ) : ℚ) := by
    exact_mod_cast hA2
  have castB1 : ((2 ^ natLog2 q.den : ℕ) : ℚ) ≤ ((q.den : ℕ) : ℚ) := by
    exact_mod_cast hB1
  have castB2 : ((q.den : ℕ) : ℚ) < ((2 ^ (natLog2 q.den + 1) : ℕ) : ℚ) := by
    exact_mod_cast hB2
  constructor
  · have hpow : (2:ℚ) ^ (ratLog2Est q - 1)
        = ((2 ^ natLog2 q.num.natAbs : ℕ) : ℚ) / ((2 ^ (natLog2 q.den + 1) : ℕ) : ℚ) := by
      unfold ratLog2Est
      rw [show (natLog2 q.num.natAbs : ℤ) - (natLog2 q.den : ℤ) - 1
          = (natLog2 q.num.natAbs : ℤ) - ((natLog2 q.den + 1 : ℕ) : ℤ) by push_cast; ring]
      rw [zpow_sub₀ (by norm_num : (2:ℚ) ≠ 0), zpow_natCast, zpow_natCast]
      push_cast
      ring
    rw [hpow, div_lt_iff₀ (by positivity)]
    calc ((2 ^ natLog2 q.num.natAbs : ℕ) : ℚ) ≤ ((q.num.natAbs : ℕ) : ℚ) := castA1
    _ = q * (q.den : ℚ) := hab
    _ < q * ((2 ^ (natLog2 q.den + 1) : ℕ) : ℚ) := by
        exact mul_lt_mul_of_pos_left castB2 hq
  · have hpow : (2:ℚ) ^ (ratLog2Est q + 1)
        = ((2 ^ (natLog2 q.num.natAbs + 1) : ℕ) : ℚ) / ((2 ^ natLog2 q.den : ℕ) : ℚ) := by
      unfold ratLog2Est
      rw [show (natLog2 q.num.natAbs : ℤ) - (natLog2 q.den : ℤ) + 1
          = ((natLog2 q.num.natAbs + 1 : ℕ) : ℤ) - ((natLog2 q.den : ℕ) : ℤ) by push_cast; ring]
      rw [zpow_sub₀ (by norm_num : (2:ℚ) ≠ 0), zpow_natCast, zpow_natCast]
      push_cast
      ring
    rw [hpow, lt_div_iff₀ (by positivity)]
    calc q * ((2 ^ natLog2 q.den : ℕ) : ℚ) ≤ q * ((q.den : ℕ) : ℚ) :=
          mul_le_mul_of_nonneg_left castB1 hq.le
    _ = ((q.num.natAbs : ℕ) : ℚ) := hab.symm
    _ < ((2 ^ (natLog2 q.num.natAbs + 1) : ℕ) : ℚ) := castA2

theorem ratExp_le_est (q : ℚ) (hq : 0 < q) : ratExp q ≤ ratLog2Est q := by
  unfold ratExp
  split_ifs with h1 h2
  · omega
  · exfalso
    rw [twoPowQ_eq] at h2
    exact absurd (ratLog2Est_bounds q hq).2 (not_lt.mpr h2)
  · exact le_rfl

theorem rPosVal_nonneg (q : ℚ) (hq : 0 < q) : 0 ≤ rPosVal q := by
  unfold rPosVal
  apply mul_nonneg _ (twoPowQ_pos _).le
  have hx : (0:ℚ) ≤ q * twoPowQ (52 - ratExp q) :=
    mul_nonneg hq.le (twoPowQ_pos _).le
  have h0 : (0:ℤ) ≤ ⌊q * twoPowQ (52 - ratExp q)⌋ := Int.floor_nonneg.mpr hx
  have h1 := pyRound_ge_floor (q * twoPowQ (52 - ratExp q))
  exact_mod_cast le_trans h0 h1

theorem rPosVal_lt (q : ℚ) (hq : 0 < q) : rPosVal q < 2 * q := by
  unfold rPosVal
  have h1 : (pyRoundHalfEven (q * twoPowQ (52 - ratExp q)) : ℚ)
      ≤ q * twoPowQ (52 - ratExp q) + 1 := pyRound_le _
  have h2 : (pyRoundHalfEven (q * twoPowQ (52 - ratExp q)) : ℚ) * twoPowQ (ratExp q - 52)
      ≤ (q * twoPowQ (52 - ratExp q) + 1) * twoPowQ (ratExp q - 52) :=
    mul_le_mul_of_nonneg_right h1 (twoPowQ_pos _).le
  have h3 : twoPowQ (52 - ratExp q) * twoPowQ (ratExp q - 52) = 1 := by
    rw [twoPowQ_eq, twoPowQ_eq, ← zpow_add₀ (by norm_num : (2:ℚ) ≠ 0)]
    norm_num
  have h4 : (q * twoPowQ (52 - ratExp q) + 1) * twoPowQ (ratExp q - 52)
      = q + twoPowQ (ratExp q - 52) := by
    have := h3
    nlinarith [h3]
  have h5 : twoPowQ (ratExp q - 52) < q := by
    rw [twoPowQ_eq]
    calc (2:ℚ) ^ (ratExp q - 52) ≤ (2:ℚ) ^ (ratLog2Est q - 1) := by
          apply zpow_le_zpow_right₀ (by norm_num : (1:ℚ) ≤ 2)
          have := ratExp_le_est q hq
          omega
    _ < q := (ratLog2Est_bounds q hq).1
  linarith

theorem roundPos_eq_of_le (q : ℚ) (hq : 0 < q) (h : q ≤ twoPowQ 1022) :
    roundPosToDouble q = some (rPosVal q) := by
  unfold roundPosToDouble
  rw [if_pos]
  have h1 := rPosVal_lt q hq
  have h2 : 2 * twoPowQ 1022 < twoPowQ 1024 := by
    rw [twoPowQ_eq, twoPowQ_eq]
    rw [show (2:ℚ) * 2 ^ (1022:ℤ) = 2 ^ (1023:ℤ) by
      rw [show (1023:ℤ) = 1 + 1022 by norm_num, zpow_add₀ (by norm_num : (2:ℚ) ≠ 0)]
      norm_num]
    apply zpow_lt_zpow_right₀ (by norm_num : (1:ℚ) < 2)
    norm_num
  linarith

theorem roundToDouble_isSome_of (q : ℚ) (h : |q| ≤ twoPowQ 1022) :
    (roundToDouble q).isSome := by
  unfold roundToDouble
  split_ifs with h0 hpos
  · rfl
  · rw [roundPos_eq_of_le q hpos (by rwa [abs_of_pos hpos] at h)]
    rfl
  · have hneg : q < 0 := by
      rcases lt_trichotomy q 0 with h' | h' | h'
      · exact h'
      · exact absurd h' h0
      · exact absurd h' hpos
    rw [roundPos_eq_of_le (-q) (by linarith) (by rwa [abs_of_neg hneg] at h)]
    rfl

theorem roundToDouble_abs_le (q r : ℚ) (h : roundToDouble q = some r) :
    |r| ≤ 2 * |q| := by
  unfold roundToDouble at h
  split_ifs at h with h0 hpos
  · cases h
    simp [h0]
  · by_cases hov : rPosVal q < twoPowQ 1024
    · rw [roundPosToDouble, if_pos hov] at h
      cases h
      rw [abs_of_nonneg (rPosVal_nonneg q hpos), abs_of_pos hpos]
      exact (rPosVal_lt q hpos).le
    · rw [roundPosToDouble, if_neg hov] at h
      cases h
  · have hneg : q < 0 := by
      rcases lt_trichotomy q 0 with h' | h' | h'
      · exact h'
      · exact absurd h' h0
      · exact absurd h' hpos
    by_cases hov : rPosVal (-q) < twoPowQ 1024
    · rw [roundPosToDouble, if_pos hov] at h
      simp only [Option.map_some'] at h
      cases h
      rw [abs_neg, abs_of_nonneg (rPosVal_nonneg (-q) (by linarith)), abs_of_neg hneg]
      have := rPosVal_lt (-q) (by linarith)
      linarith
    · rw [roundPosToDouble, if_neg hov] at h
      simp at h

theorem twoPowQ_mono {j k : ℤ} (h : j ≤ k) : twoPowQ j ≤ twoPowQ k := by
  rw [twoPowQ_eq, twoPowQ_eq]
  exact zpow_le_zpow_right₀ (by norm_num : (1:ℚ) ≤ 2) h

theorem pct_bound (s : Sec) : |SECTION_DISTRIBUTION s| ≤ 1/2 := by
  cases s <;> decide

theorem allocatedMarks_isSome (t : ℤ) (h : t.natAbs ≤ natTwoPow 970) :
    (allocatedMarks t).isSome := by
  have h970 : |(t:ℚ)| ≤ twoPowQ 970 := by
    have e1 : twoPowQ 970 = ((natTwoPow 970 : ℕ) : ℚ) := by
      unfold twoPowQ
      rw [if_pos (by norm_num : (0:ℤ) ≤ 970)]
      rw [show Int.toNat 970 = 970 by decide]
    have e2 : |(t:ℚ)| = ((t.natAbs : ℕ) : ℚ) := by
      have h1 : ((t.natAbs : ℕ) : ℚ) = ((t.natAbs : ℤ) : ℚ) := (Int.cast_natCast _).symm
      rw [h1, ← Int.abs_eq_natAbs, Int.cast_abs]
    rw [e1, e2]
    exact_mod_cast h
  have hle : |(t:ℚ)| ≤ twoPowQ 1022 :=
    le_trans h970 (twoPowQ_mono (by norm_num))
  obtain ⟨f, hf⟩ := Option.isSome_iff_exists.mp (roundToDouble_isSome_of _ hle)
  have hfb : |f| ≤ 2 * |(t:ℚ)| := roundToDouble_abs_le _ _ hf
  have hprod : ∀ s : Sec, |f * SECTION_DISTRIBUTION s| ≤ twoPowQ 1022 := by
    intro s
    rw [abs_mul]
    calc |f| * |SECTION_DISTRIBUTION s| ≤ (2 * twoPowQ 970) * (1/2) := by
          apply mul_le_mul (by linarith) (pct_bound s) (abs_nonneg _)
            (by have := twoPowQ_pos 970; linarith)
    _ = twoPowQ 970 := by ring
    _ ≤ twoPowQ 1022 := twoPowQ_mono (by norm_num)
  obtain ⟨pA, hpA⟩ := Option.isSome_iff_exists.mp (roundToDouble_isSome_of _ (hprod .A))
  obtain ⟨pB, hpB⟩ := Option.isSome_iff_exists.mp (roundToDouble_isSome_of _ (hprod .B))
  obtain ⟨pC, hpC⟩ := Option.isSome_iff_exists.mp (roundToDouble_isSome_of _ (hprod .C))
  obtain ⟨pD, hpD⟩ := Option.isSome_iff_exists.mp (roundToDouble_isSome_of _ (hprod .D))
  obtain ⟨pE, hpE⟩ := Option.isSome_iff_exists.mp (roundToDouble_isSome_of _ (hprod .E))
  unfold allocatedMarks intToFloat pyFloatMul
  rw [hf]
  simp only [Option.bind_eq_bind, Option.some_bind', hpA, hpB, hpC, hpD, hpE]
  rfl

theorem buildResult_sum (total : ℤ) (am : SecMap) :
    (buildResult total am).qA * 1 + (buildResult total am).qB * 2
    + (buildResult total am).qC * 3 + (buildResult total am).qD * 5
    + (buildResult total am).qE * 4 = total := by
  simp only [buildResult, finalCounts]
  by_cases h : total - actualMarks (questionCounts am) ≠ 0
  · simp only [if_pos h]
    simp only [actualMarks, MARKS_PER_QUESTION, SECTION_MAP] at *
    simp
    omega
  · simp only [if_neg h]
    simp only [actualMarks, MARKS_PER_QUESTION, SECTION_MAP] at *
    omega

theorem buildResult_marks_sum (total : ℤ) (am : SecMap) :
    (buildResult total am).mMCQ + (buildResult total am).mVSA
    + (buildResult total am).mSA + (buildResult total am).mLA
    + (buildResult total am).mCASE = total := by
  have h := buildResult_sum total am
  simp only [buildResult] at h ⊢
  simp only [MARKS_PER_QUESTION, SECTION_MAP] at *
  omega

/-! Claim theorems for the blueprint allocator -/

/-- C1: for every integer total_marks ≥ 1, any allocation returned by
allocate_marks_and_generate_blueprint satisfies: the sum over the five
categories of final question count times per-question weight
(1, 2, 3, 5, 4) equals total_marks exactly, and the marksDistribution in
the returned blueprint sums to total_marks. -/
theorem C1_blueprint_sum (total : ℤ) (h1 : 1 ≤ total) (r : BlueprintResult)
    (hr : allocate_marks_and_generate_blueprint total = some r) :
    r.qA * 1 + r.qB * 2 + r.qC * 3 + r.qD * 5 + r.qE * 4 = total ∧
    r.mMCQ + r.mVSA + r.mSA + r.mLA + r.mCASE = total := by
  obtain ⟨am, ham, hbr⟩ := Option.map_eq_some'.mp hr
  rw [← hbr]
  exact ⟨buildResult_sum total am, buildResult_marks_sum total am⟩

/-- Witness for C1 at total_marks = 100. -/
theorem C1_blueprint_sum_witness :
    (1:ℤ) ≤ 100 ∧
    allocate_marks_and_generate_blueprint 100 =
      some ⟨100, 17, 7, 8, 5, 5, 17, 14, 24, 25, 20, "40%", "40%", "20%", []⟩ ∧
    ((17:ℤ) * 1 + 7 * 2 + 8 * 3 + 5 * 5 + 5 * 4 = 100 ∧
     (17:ℤ) + 14 + 24 + 25 + 20 = 100) := by
  refine ⟨by norm_num, by decide, ?_⟩
  exact C1_blueprint_sum 100 (by norm_num)
    ⟨100, 17, 7, 8, 5, 5, 17, 14, 24, 25, 20, "40%", "40%", "20%", []⟩ (by decide)

/-- C8: each category's pre-reconciliation question count equals
max(1, allocated_marks // per_question_marks); whenever the weighted sum
differs from total_marks, the entire signed difference is added to the
MCQ (section A) count alone, the other four counts unchanged; and for
small budgets this drives the MCQ count below 1 (indeed negative at
total_marks = 1). -/
theorem C8_precounts_and_adjustment :
    (∀ (am : SecMap) (s : Sec),
        questionCounts am s
          = max 1 (Int.fdiv (am.get s) (MARKS_PER_QUESTION (SECTION_MAP s)))) ∧
    (∀ (total : ℤ) (am : SecMap) (r : BlueprintResult),
        allocatedMarks total = some am →
        allocate_marks_and_generate_blueprint total = some r →
        r.qA = questionCounts am Sec.A + (total - actualMarks (questionCounts am)) ∧
        r.qB = questionCounts am Sec.B ∧ r.qC = questionCounts am Sec.C ∧
        r.qD = questionCounts am Sec.D ∧ r.qE = questionCounts am Sec.E) ∧
    (∃ r, allocate_marks_and_generate_blueprint 1 = some r ∧ r.qA < 1) := by
  refine ⟨fun am s => rfl, ?_, ?_⟩
  · intro total am r ham hr
    have hre : r = buildResult total am := by
      unfold allocate_marks_and_generate_blueprint at hr
      rw [ham] at hr
      simpa using hr.symm
    subst hre
    simp only [buildResult, finalCounts]
    by_cases hd : total - actualMarks (questionCounts am) ≠ 0
    · simp only [if_pos hd]
      refine ⟨by simp, by simp, by simp, by simp, by simp⟩
    · simp only [if_neg hd]
      exact ⟨by omega, by trivial, by trivial, by trivial, by trivial⟩
  · exact ⟨⟨1, -13, 1, 1, 1, 1, -13, 2, 3, 5, 4, "40%", "40%", "20%", []⟩,
      by decide, by norm_num⟩

/-- Witness for C8 at total_marks = 1 (allocated marks all round to 0). -/
theorem C8_precounts_and_adjustment_witness :
    questionCounts ⟨0, 0, 0, 0, 0⟩ Sec.A
      = max 1 (Int.fdiv ((SecMap.mk 0 0 0 0 0).get Sec.A)
          (MARKS_PER_QUESTION (SECTION_MAP Sec.A))) ∧
    ((⟨1, -13, 1, 1, 1, 1, -13, 2, 3, 5, 4, "40%", "40%", "20%", []⟩
        : BlueprintResult).qA
      = questionCounts ⟨0, 0, 0, 0, 0⟩ Sec.A
        + (1 - actualMarks (questionCounts ⟨0, 0, 0, 0, 0⟩)) ∧
     (⟨1, -13, 1, 1, 1, 1, -13, 2, 3, 5, 4, "40%", "40%", "20%", []⟩
        : BlueprintResult).qB = questionCounts ⟨0, 0, 0, 0, 0⟩ Sec.B ∧
     (⟨1, -13, 1, 1, 1, 1, -13, 2, 3, 5, 4, "40%", "40%", "20%", []⟩
        : BlueprintResult).qC = questionCounts ⟨0, 0, 0, 0, 0⟩ Sec.C ∧
     (⟨1, -13, 1, 1, 1, 1, -13, 2, 3, 5, 4, "40%", "40%", "20%", []⟩
        : BlueprintResult).qD = questionCounts ⟨0, 0, 0, 0, 0⟩ Sec.D ∧
     (⟨1, -13, 1, 1, 1, 1, -13, 2, 3, 5, 4, "40%", "40%", "20%", []⟩
        : BlueprintResult).qE = questionCounts ⟨0, 0, 0, 0, 0⟩ Sec.E) :=
  ⟨C8_precounts_and_adjustment.1 ⟨0, 0, 0, 0, 0⟩ Sec.A,
   C8_precounts_and_adjustment.2.1 1 ⟨0, 0, 0, 0, 0⟩ _ (by decide) (by decide)⟩

set_option maxRecDepth 4000 in
/-- C9 counterexample: at total_marks = 10^400 the int-to-float
conversion in round(total_marks * pct) overflows and the function raises
OverflowError (modelled as none), so the function is not total over all
integers. -/
theorem C9_not_total_counterexample :
    allocate_marks_and_generate_blueprint (10 ^ 400) = none := by
  decide

/-- C9 (amended): for every integer total_marks whose absolute value is
at most 2^970 (far beyond any realistic mark budget but within IEEE
double range), including zero and negative values,
allocate_marks_and_generate_blueprint returns a result without raising
any exception; integers beyond double range raise OverflowError. -/
theorem C9_total_within_double_range (total : ℤ)
    (h : total.natAbs ≤ natTwoPow 970) :
    ∃ r, allocate_marks_and_generate_blueprint total = some r := by
  obtain ⟨am, ham⟩ := Option.isSome_iff_exists.mp (allocatedMarks_isSome total h)
  refine ⟨buildResult total am, ?_⟩
  unfold allocate_marks_and_generate_blueprint
  rw [ham]
  rfl

/-- Witness for C9 (amended) at the degenerate negative input -5. -/
theorem C9_total_within_double_range_witness :
    (-5 : ℤ).natAbs ≤ natTwoPow 970 ∧
    ∃ r, allocate_marks_and_generate_blueprint (-5) = some r :=
  ⟨by decide, C9_total_within_double_range (-5) (by decide)⟩

/-! JSON values, as handled by utils/json_parser.py.

A Python value that json can serialize is modelled by Json below.
Strings are lists of Unicode scalar values (Python strings containing
lone surrogates are outside the model).  Floats are outside the model:
the parser reports a float literal as an out-of-model outcome rather
than guessing, and no claim here involves float values.  Python dicts
are ordered association lists whose keys are unique. -/

mutual
inductive Json where
  | null : Json
  | bool (b : Bool) : Json
  | num (n : ℤ) : Json
  | str (s : List Char) : Json
  | arr (xs : JsonList) : Json
  | obj (xs : JsonObj) : Json
inductive JsonList where
  | nil : JsonList
  | cons (hd : Json) (tl : JsonList) : JsonList
inductive JsonObj where
  | nil : JsonObj
  | cons (k : List Char) (v : Json) (tl : JsonObj) : JsonObj
end

mutual
/-- Decidable equality for Json. -/
def Json.beq : Json → Json → Bool
  | .null, .null => true
  | .bool a, .bool b => a = b
  | .num a, .num b => a = b
  | .str a, .str b => a = b
  | .arr a, .arr b => JsonList.beq a b
  | .obj a, .obj b => JsonObj.beq a b
  | _, _ => false
/-- Decidable equality for JsonList. -/
def JsonList.beq : JsonList → JsonList → Bool
  | .nil, .nil => true
  | .cons x xs, .cons y ys => Json.beq x y && JsonList.beq xs ys
  | _, _ => false
/-- Decidable equality for JsonObj. -/
def JsonObj.beq : JsonObj → JsonObj → Bool
  | .nil, .nil => true
  | .cons k v tl, .cons k' v' tl' => k = k' && Json.beq v v' && JsonObj.beq tl tl'
  | _, _ => false
end

mutual
theorem Json.beq_iff_json : ∀ a b : Json, Json.beq a b = true ↔ a = b
  | .null, b => by cases b <;> simp [Json.beq]
  | .bool x, b => by cases b <;> simp [Json.beq]
  | .num x, b => by cases b <;> simp [Json.beq]
  | .str x, b => by cases b <;> simp [Json.beq]
  | .arr x, b => by
      cases b <;> simp [Json.beq]
      exact JsonList.beq_iff_jlist x _
  | .obj x, b => by
      cases b <;> simp [Json.beq]
      exact JsonObj.beq_iff_jobj x _
theorem JsonList.beq_iff_jlist : ∀ a b : JsonList, JsonList.beq a b = true ↔ a = b
  | .nil, b => by cases b <;> simp [JsonList.beq]
  | .cons x xs, b => by
      cases b with
      | nil => simp [JsonList.beq]
      | cons y ys =>
          simp only [JsonList.beq, Bool.and_eq_true, JsonList.cons.injEq]
          rw [Json.beq_iff_json, JsonList.beq_iff_jlist]
theorem JsonObj.beq_iff_jobj : ∀ a b : JsonObj, JsonObj.beq a b = true ↔ a = b
  | .nil, b => by cases b <;> simp [JsonObj.beq]
  | .cons k v tl, b => by
      cases b with
      | nil => simp [JsonObj.beq]
      | cons k' v' tl' =>
          simp only [JsonObj.beq, Bool.and_eq_true, JsonObj.cons.injEq,
            decide_eq_true_eq]
          rw [Json.beq_iff_json, JsonObj.beq_iff_jobj]
          tauto
end

instance : DecidableEq Json := fun a b =>
  decidable_of_iff (Json.beq a b = true) (Json.beq_iff_json a b)

instance : DecidableEq JsonList := fun a b =>
  decidable_of_iff (JsonList.beq a b = true) (JsonList.beq_iff_jlist a b)

instance : DecidableEq JsonObj := fun a b =>
  decidable_of_iff (JsonObj.beq a b = true) (JsonObj.beq_iff_jobj a b)

/-! Serialization: json.dumps with its default options (ensure_ascii,
separators (", ", ": ")). -/

/-- The decimal digit character for d < 10. -/
def digitChar (d : ℕ) : Char := Char.ofNat (48 + d)

/-- Lowercase hexadecimal digit character for d < 16. -/
def hexChar (d : ℕ) : Char :=
  if d < 10 then Char.ofNat (48 + d) else Char.ofNat (87 + d)

/-- Four lowercase hex digits of n < 0x10000. -/
def hex4 (n : ℕ) : List Char :=
  [hexChar (n / 4096 % 16), hexChar (n / 256 % 16),
   hexChar (n / 16 % 16), hexChar (n % 16)]

/-- Fueled decimal representation of a natural number, most significant
digit first; fuel n + 1 always suffices. -/
def natReprFuel : ℕ → ℕ → List Char
  | 0, _ => []
  | fuel + 1, n =>
    if n < 10 then [digitChar n]
    else natReprFuel fuel (n / 10) ++ [digitChar (n % 10)]

/-- Decimal representation of a natural number (Python str). -/
def natRepr (n : ℕ) : List Char := natReprFuel (n + 1) n

/-- Decimal representation of an integer (Python str). -/
def intRepr (n : ℤ) : List Char :=
  if n < 0 then '-' :: natRepr n.natAbs else natRepr n.natAbs

/-- The escape of a single character in a JSON string under
ensure_ascii: named short escapes, \uXXXX for other characters outside
0x20..0x7E, surrogate pairs above 0xFFFF. -/
def escapeChar (c : Char) : List Char :=
  if c = '"' then ['\\', '"']
  else if c = '\\' then ['\\', '\\']
  else if c = '\n' then ['\\', 'n']
  else if c = '\r' then ['\\', 'r']
  else if c = '\t' then ['\\', 't']
  else if c.toNat = 8 then ['\\', 'b']
  else if c.toNat = 12 then ['\\', 'f']
  else if c.toNat < 32 ∨ 126 < c.toNat then
    if c.toNat < 65536 then '\\' :: 'u' :: hex4 c.toNat
    else '\\' :: 'u' :: hex4 (55296 + (c.toNat - 65536) / 1024)
         ++ '\\' :: 'u' :: hex4 (56320 + (c.toNat - 65536) % 1024)
  else [c]

/-- Escape every character of a JSON string body. -/
def escapeString : List Char → List Char
  | [] => []
  | c :: rest => escapeChar c ++ escapeString rest

mutual
/-- json.dumps with default separators. -/
def dumps : Json → List Char
  | .null => "null".data
  | .bool true => "true".data
  | .bool false => "false".data
  | .num n => intRepr n
  | .str s => '"' :: (escapeString s ++ ['"'])
  | .arr .nil => ['[', ']']
  | .arr (.cons x tl) => '[' :: (dumps x ++ dumpsListTail tl ++ [']'])
  | .obj .nil => ['{', '}']
  | .obj (.cons k v tl) =>
    '{' :: ('"' :: (escapeString k ++ '"' :: ':' :: ' ' :: dumps v)
            ++ dumpsObjTail tl ++ ['}'])
/-- The remaining elements of an array, each preceded by ", ". -/
def dumpsListTail : JsonList → List Char
  | .nil => []
  | .cons x tl => ',' :: ' ' :: (dumps x ++ dumpsListTail tl)
/-- The remaining members of an object, each preceded by ", ". -/
def dumpsObjTail : JsonObj → List Char
  | .nil => []
  | .cons k v tl =>
    ',' :: ' ' :: ('"' :: (escapeString k ++ '"' :: ':' :: ' ' :: dumps v)
                   ++ dumpsObjTail tl)
end

/-! Parsing: json.loads.  Error messages follow Python's
JSONDecodeError messages, without the line/column position suffix.
Inputs whose parse would produce a Python float (a fraction or exponent
in a number literal, or the NaN/Infinity literals) and strings with lone
surrogates are outside this embedding: the parser reports them as an
out-of-model outcome instead of modelling float semantics. -/

/-- A parse outcome that is not a value. -/
inductive PErr where
  | fail (msg : String)
  | outOfModel (what : String)
deriving DecidableEq, Repr

instance {ε α : Type} [DecidableEq ε] [DecidableEq α] : DecidableEq (Except ε α)
  | .ok a, .ok b =>
    if h : a = b then .isTrue (by rw [h]) else .isFalse (by simp [h])
  | .ok _, .error _ => .isFalse (by simp)
  | .error _, .ok _ => .isFalse (by simp)
  | .error e, .error e' =>
    if h : e = e' then .isTrue (by rw [h]) else .isFalse (by simp [h])

/-- JSON whitespace, as in Python's json module. -/
def isJsonWs (c : Char) : Bool := c = ' ' || c = '\t' || c = '\n' || c = '\r'

/-- Skip JSON whitespace. -/
def dropWs (s : List Char) : List Char := s.dropWhile isJsonWs

/-- Value of one hexadecimal digit. -/
def hexVal (c : Char) : Option ℕ :=
  if '0' ≤ c ∧ c ≤ '9' then some (c.toNat - 48)
  else if 'a' ≤ c ∧ c ≤ 'f' then some (c.toNat - 87)
  else if 'A' ≤ c ∧ c ≤ 'F' then some (c.toNat - 55)
  else none

/-- The named single-character escapes (py BACKSLASH table). -/
def escTable (e : Char) : Option Char :=
  if e = '"' then some '"'
  else if e = '\\' then some '\\'
  else if e = '/' then some '/'
  else if e = 'b' then some (Char.ofNat 8)
  else if e = 'f' then some (Char.ofNat 12)
  else if e = 'n' then some '\n'
  else if e = 'r' then some '\r'
  else if e = 't' then some '\t'
  else none

/-- One step of string scanning: the closing quote, one produced
character, or a failure. -/
inductive StrAction where
  | done (rest : List Char)
  | push (c : Char) (rest : List Char)
  | perr (e : PErr)
deriving DecidableEq, Repr

/-- A backslash-u escape: four hex digits, with surrogate-pair
combination consumed in the same step. -/
def parseU (a b c d : Char) (rest : List Char) : StrAction :=
  match hexVal a, hexVal b, hexVal c, hexVal d with
  | some x1, some x2, some x3, some x4 =>
    if 55296 ≤ 4096 * x1 + 256 * x2 + 16 * x3 + x4
        ∧ 4096 * x1 + 256 * x2 + 16 * x3 + x4 ≤ 56319 then
      match rest with
      | '\\' :: 'u' :: a2 :: b2 :: c2 :: d2 :: rest2 =>
        match hexVal a2, hexVal b2, hexVal c2, hexVal d2 with
        | some y1, some y2, some y3, some y4 =>
          if 56320 ≤ 4096 * y1 + 256 * y2 + 16 * y3 + y4
              ∧ 4096 * y1 + 256 * y2 + 16 * y3 + y4 ≤ 57343 then
            .push (Char.ofNat (65536
                    + 1024 * (4096 * x1 + 256 * x2 + 16 * x3 + x4 - 55296)
                    + (4096 * y1 + 256 * y2 + 16 * y3 + y4 - 56320))) rest2
          else .perr (.outOfModel "lone surrogate in string")
        | _, _, _, _ => .perr (.fail "Invalid \\uXXXX escape")
      | _ => .perr (.outOfModel "lone surrogate in string")
    else if 56320 ≤ 4096 * x1 + 256 * x2 + 16 * x3 + x4
        ∧ 4096 * x1 + 256 * x2 + 16 * x3 + x4 ≤ 57343 then
      .perr (.outOfModel "lone surrogate in string")
    else .push (Char.ofNat (4096 * x1 + 256 * x2 + 16 * x3 + x4)) rest
  | _, _, _, _ => .perr (.fail "Invalid \\uXXXX escape")

/-- A single-character backslash escape. -/
def parseEsc (e : Char) (rest : List Char) : StrAction :=
  if e = 'u' then .perr (.fail "Invalid \\uXXXX escape")
  else
    match escTable e with
    | some c => .push c rest
    | none => .perr (.fail "Invalid \\escape")

/-- An unescaped character; control characters are rejected
(strict=True). -/
def parsePlain (c : Char) (rest : List Char) : StrAction :=
  if c.toNat < 32 then .perr (.fail "Invalid control character")
  else .push c rest

/-- Consume one lexical element of a JSON string body: an unescaped
character, a named escape, or a backslash-u escape with surrogate-pair
combination (py_scanstring with strict=True). -/
def strStep : List Char → StrAction
  | [] => .perr (.fail "Unterminated string starting at")
  | '"' :: rest => .done rest
  | '\\' :: 'u' :: a :: b :: c :: d :: rest => parseU a b c d rest
  | '\\' :: e :: rest => parseEsc e rest
  | ['\\'] => .perr (.fail "Unterminated string starting at")
  | c :: rest => parsePlain c rest

/-- Parse the body of a JSON string after the opening quote; each step
consumes at least one character, so fuel exceeding the input length
always suffices. -/
def parseStringBody : ℕ → List Char → Except PErr (List Char × List Char)
  | 0, _ => .error (.fail "Unterminated string starting at")
  | fuel + 1, s =>
    match strStep s with
    | .done rest => .ok ([], rest)
    | .push c rest =>
      match parseStringBody fuel rest with
      | .ok (out, r) => .ok (c :: out, r)
      | .error e => .error e
    | .perr e => .error e

/-- Parse a JSON string body (py_scanstring). -/
def parseString (s : List Char) : Except PErr (List Char × List Char) :=
  parseStringBody (s.length + 1) s

/-- Decimal digit test. -/
def isDigit (c : Char) : Bool := '0' ≤ c && c ≤ '9'

/-- Value of a list of decimal digits, given an accumulator. -/
def digitsVal : List Char → ℕ → ℕ
  | [], acc => acc
  | c :: rest, acc => digitsVal rest (10 * acc + (c.toNat - 48))

/-- The integer part of the NUMBER_RE regex: 0, or a nonzero digit
followed by digits.  Returns the digits and the rest. -/
def numIntPart : List Char → Option (List Char × List Char)
  | [] => none
  | c :: rest =>
    if c = '0' then some (['0'], rest)
    else if isDigit c then some (c :: rest.takeWhile isDigit, rest.dropWhile isDigit)
    else none

/-- The optional fraction part: a dot followed by at least one digit.
Returns whether it matched and the rest. -/
def numFracPart : List Char → Bool × List Char
  | '.' :: c :: rest =>
    if isDigit c then (true, rest.dropWhile isDigit)
    else (false, '.' :: c :: rest)
  | cs => (false, cs)

/-- The optional exponent part: e or E, an optional sign, and at least
one digit.  Returns whether it matched and the rest. -/
def numExpPart : List Char → Bool × List Char
  | [] => (false, [])
  | e :: rest =>
    if e = 'e' || e = 'E' then
      match rest with
      | '+' :: c :: r2 =>
        if isDigit c then (true, r2.dropWhile isDigit) else (false, e :: rest)
      | '-' :: c :: r2 =>
        if isDigit c then (true, r2.dropWhile isDigit) else (false, e :: rest)
      | c :: r2 =>
        if isDigit c then (true, r2.dropWhile isDigit) else (false, e :: rest)
      | [] => (false, e :: rest)
    else (false, e :: rest)

/-- Number scanning after the optional leading minus sign. -/
def scanNumAux (neg : Bool) (cs1 : List Char) :
    Option (Except PErr (Json × List Char)) :=
  match numIntPart cs1 with
  | none => none
  | some (ds, r1) =>
    if (numFracPart r1).1 || (numExpPart (numFracPart r1).2).1 then
      some (.error (.outOfModel "float literal"))
    else
      some (.ok (.num (if neg then -(digitsVal ds 0 : ℤ) else (digitsVal ds 0 : ℤ)), r1))

/-- Scan a number token (NUMBER_RE); none when no number starts here.
A matched fraction or exponent means a Python float: out of model. -/
def scanNumber : List Char → Option (Except PErr (Json × List Char))
  | '-' :: r => scanNumAux true r
  | cs => scanNumAux false cs

/-- Does the input start with NaN, Infinity or -Infinity? -/
def isNonFiniteStart : List Char → Bool
  | 'N' :: 'a' :: 'N' :: _ => true
  | 'I' :: 'n' :: 'f' :: 'i' :: 'n' :: 'i' :: 't' :: 'y' :: _ => true
  | '-' :: 'I' :: 'n' :: 'f' :: 'i' :: 'n' :: 'i' :: 't' :: 'y' :: _ => true
  | _ => false

/-- Insert a key into a Python dict: replace the value in place if the
key exists, else append. -/
def objInsert : JsonObj → List Char → Json → JsonObj
  | .nil, k, v => .cons k v .nil
  | .cons k' v' tl, k, v =>
    if k' = k then .cons k' v tl else .cons k' v' (objInsert tl k v)

/-- Build a Python dict from a list of pairs (dict(pairs)). -/
def objFromPairsAux : JsonObj → JsonObj → JsonObj
  | acc, .nil => acc
  | acc, .cons k v tl => objFromPairsAux (objInsert acc k v) tl

/-- Python dict(pairs). -/
def objFromPairs (ps : JsonObj) : JsonObj := objFromPairsAux .nil ps

mutual
/-- The scanner's _scan_once: parse one JSON value at the head of the
input (no leading whitespace).  The fuel bounds recursion depth and is
always sufficient when it exceeds the input length. -/
def scanValue : ℕ → List Char → Except PErr (Json × List Char)
  | 0, _ => .error (.fail "Expecting value")
  | fuel + 1, cs =>
    match cs with
    | [] => .error (.fail "Expecting value")
    | c :: rest =>
      if c = '"' then
        match parseString rest with
        | .ok (s, r) => .ok (.str s, r)
        | .error e => .error e
      else if c = '{' then
        match dropWs rest with
        | '}' :: r2 => .ok (.obj .nil, r2)
        | r2 =>
          match parseMembers fuel r2 with
          | .ok (ps, r3) => .ok (.obj (objFromPairs ps), r3)
          | .error e => .error e
      else if c = '[' then
        match dropWs rest with
        | ']' :: r2 => .ok (.arr .nil, r2)
        | r2 =>
          match parseItems fuel r2 with
          | .ok (xs, r3) => .ok (.arr xs, r3)
          | .error e => .error e
      else if c = 'n' ∧ rest.take 3 = ['u', 'l', 'l'] then .ok (.null, rest.drop 3)
      else if c = 't' ∧ rest.take 3 = ['r', 'u', 'e'] then .ok (.bool true, rest.drop 3)
      else if c = 'f' ∧ rest.take 4 = ['a', 'l', 's', 'e'] then
        .ok (.bool false, rest.drop 4)
      else
        match scanNumber (c :: rest) with
        | some res => res
        | none =>
          if isNonFiniteStart (c :: rest) then
            .error (.outOfModel "non-finite float literal")
          else .error (.fail "Expecting value")
/-- JSONArray's loop from the first element on (whitespace already
skipped, not at a closing bracket). -/
def parseItems : ℕ → List Char → Except PErr (JsonList × List Char)
  | 0, _ => .error (.fail "Expecting value")
  | fuel + 1, cs =>
    match scanValue fuel cs with
    | .error e => .error e
    | .ok (v, r1) =>
      match dropWs r1 with
      | ']' :: r2 => .ok (.cons v .nil, r2)
      | ',' :: r2 =>
        match parseItems fuel (dropWs r2) with
        | .ok (xs, r3) => .ok (.cons v xs, r3)
        | .error e => .error e
      | _ => .error (.fail "Expecting ',' delimiter")
/-- JSONObject's loop from the first member on (whitespace already
skipped, not at a closing brace). -/
def parseMembers : ℕ → List Char → Except PErr (JsonObj × List Char)
  | 0, _ => .error (.fail "Expecting value")
  | fuel + 1, cs =>
    match cs with
    | '"' :: rest =>
      match parseString rest with
      | .error e => .error e
      | .ok (k, r1) =>
        match dropWs r1 with
        | ':' :: r2 =>
          match scanValue fuel (dropWs r2) with
          | .error e => .error e
          | .ok (v, r3) =>
            match dropWs r3 with
            | '}' :: r4 => .ok (.cons k v .nil, r4)
            | ',' :: r4 =>
              match parseMembers fuel (dropWs r4) with
              | .ok (ms, r5) => .ok (.cons k v ms, r5)
              | .error e => .error e
            | _ => .error (.fail "Expecting ',' delimiter")
        | _ => .error (.fail "Expecting ':' delimiter")
    | _ => .error (.fail "Expecting property name enclosed in double quotes")
end

/-- json.loads: skip leading whitespace, parse one value, skip trailing
whitespace, and require the input to be exhausted. -/
def loads (s : List Char) : Except PErr Json :=
  match scanValue (s.length + 1) (dropWs s) with
  | .error e => .error e
  | .ok (v, rest) =>
    if dropWs rest = [] then .ok v else .error (.fail "Extra data")

/-! The extraction layer of JSONParser.extract_json_from_response:
the markdown-fence regex, strip, and the cleanup substitutions.
The regex character class \s and str.strip() are modelled over their
ASCII whitespace sets (these inputs are ASCII-framed model output). -/

/-- ASCII regex whitespace [ \t\n\r\f\v]. -/
def isRegexWs (c : Char) : Bool :=
  c = ' ' || c = '\t' || c = '\n' || c = '\r' || c.toNat = 11 || c.toNat = 12

/-- Python str.strip(). -/
def pyStrip (s : List Char) : List Char :=
  ((s.dropWhile isRegexWs).reverse.dropWhile isRegexWs).reverse

/-- Does the text start with three backticks? -/
def startsWith3Backticks : List Char → Bool
  | '`' :: '`' :: '`' :: _ => true
  | _ => false

/-- Can the tail of the regex, a whitespace run followed by three
backticks, match at the head of this text?  Since backticks are not
whitespace this holds exactly when the maximal whitespace run is
followed by three backticks. -/
def wsThenTriple (t : List Char) : Bool :=
  startsWith3Backticks (t.dropWhile isRegexWs)

/-- The lazy group (.*?) of the fence regex: the shortest prefix whose
remainder matches the whitespace-then-backticks tail. -/
def lazyScan : List Char → List Char → Option (List Char)
  | _, [] => none
  | acc, c :: r =>
    if wsThenTriple (c :: r) then some acc.reverse
    else lazyScan (c :: acc) r

/-- Try to complete a fence match after an opening triple of backticks:
an optional json tag, greedy whitespace, then the lazy group. -/
def completeFence (t : List Char) : Option (List Char) :=
  match t with
  | 'j' :: 's' :: 'o' :: 'n' :: r =>
    if wsThenTriple r then some [] else lazyScan [] (r.dropWhile isRegexWs)
  | _ =>
    if wsThenTriple t then some [] else lazyScan [] (t.dropWhile isRegexWs)

/-- Search for the first match of the fence regex (the leftmost starting
triple of backticks from which a complete match exists) and return its
group. -/
def findFence : List Char → Option (List Char)
  | '`' :: '`' :: '`' :: rest =>
    match completeFence rest with
    | some g => some g
    | none => findFence ('`' :: '`' :: rest)
  | _ :: rest => findFence rest
  | [] => none

/-- The candidate JSON text: the stripped group of the first fence
match, or the stripped whole input when no fence matches. -/
def extractCandidate (raw : List Char) : List Char :=
  match findFence raw with
  | some g => pyStrip g
  | none => pyStrip raw

mutual
/-- One cleanup substitution of _clean_json_content: replace every
comma followed by whitespace and the closing character with the closing
character alone (re.sub of a comma, a whitespace run, then close). -/
def cleanComma (close : Char) : List Char → List Char
  | [] => []
  | ',' :: rest => cleanCommaWs close [] rest
  | c :: rest => c :: cleanComma close rest
/-- Scanning state after a comma: accumulate whitespace until the
closing character (a match, replaced), another comma (restart the
match there), or anything else (no match, emit verbatim). -/
def cleanCommaWs (close : Char) : List Char → List Char → List Char
  | ws, [] => ',' :: ws.reverse
  | ws, c :: rest =>
    if isRegexWs c then cleanCommaWs close (c :: ws) rest
    else if c = close then close :: cleanComma close rest
    else if c = ',' then ',' :: (ws.reverse ++ cleanCommaWs close [] rest)
    else ',' :: (ws.reverse ++ (c :: cleanComma close rest))
end

mutual
/-- Remove double-slash line comments (re.sub of a lazy run up to the
end of the line, MULTILINE). -/
def stripLineComments : List Char → List Char
  | [] => []
  | '/' :: '/' :: rest => skipToNewline rest
  | c :: rest => c :: stripLineComments rest
/-- Skip the remainder of a line comment; the newline itself is kept. -/
def skipToNewline : List Char → List Char
  | [] => []
  | '\n' :: rest => '\n' :: stripLineComments rest
  | _ :: rest => skipToNewline rest
end

/-- Is a block-comment terminator ahead? -/
def hasCloseBlock : List Char → Bool
  | '*' :: '/' :: _ => true
  | _ :: rest => hasCloseBlock rest
  | [] => false

mutual
/-- Remove block comments (re.sub of a lazy run between the comment
delimiters, DOTALL).  An unterminated opener matches nothing and is
kept. -/
def stripBlockComments : List Char → List Char
  | [] => []
  | '/' :: '*' :: rest =>
    if hasCloseBlock rest then skipBlock rest
    else '/' :: stripBlockComments ('*' :: rest)
  | c :: rest => c :: stripBlockComments rest
/-- Skip to just after the first comment terminator. -/
def skipBlock : List Char → List Char
  | '*' :: '/' :: rest => stripBlockComments rest
  | _ :: rest => skipBlock rest
  | [] => []
end

/-- JSONParser._clean_json_content: the four substitutions in source
order. -/
def clean_json_content (s : List Char) : List Char :=
  stripBlockComments (stripLineComments (cleanComma ']' (cleanComma '}' s)))

/-- The Python type name of a modelled value, as in TypeError
messages. -/
def pyTypeName : Json → String
  | .null => "NoneType"
  | .bool _ => "bool"
  | .num _ => "int"
  | .str _ => "str"
  | .arr _ => "list"
  | .obj _ => "dict"

/-- JSONParser.merge_dicts: a new dict with the keys of both, values of
the second overwriting those of the first. -/
def merge_dicts (dict1 dict2 : JsonObj) : JsonObj := objFromPairsAux dict1 dict2

/-- The success tail of extract_json_from_response: merge the parsed
data over the metadata when metadata was supplied.  A non-dict parsed
value makes the merge raise TypeError, which the function's blanket
except clause converts into a failure triple. -/
def mergeStep (result_metadata : Option JsonObj) (parsed : Json)
    (raw : List Char) (fallback_to_raw : Bool) : Bool × Json × Option String :=
  match result_metadata with
  | none => (true, parsed, none)
  | some d =>
    match parsed with
    | .obj o => (true, .obj (merge_dicts d o), none)
    | _ =>
      (false, if fallback_to_raw then .str raw else .null,
       some ("Unexpected error during JSON parsing: '" ++ pyTypeName parsed
             ++ "' object is not a mapping"))

/-- JSONParser.extract_json_from_response with parse=True (the
parse=False branch only returns the extracted candidate string and is
not involved in any claim).  The result none means the input exercised
a feature outside this embedding (float literals, lone surrogates);
otherwise the triple (success, value, error) of the Python function is
returned, which itself never raises.  Error message position suffixes
are not modelled. -/
def extract_json_from_response (raw : List Char)
    (result_metadata : Option JsonObj := none)
    (fallback_to_raw : Bool := true) : Option (Bool × Json × Option String) :=
  if raw = [] then some (false, .null, some "Empty or invalid content provided")
  else
    match loads (extractCandidate raw) with
    | .ok parsed => some (mergeStep result_metadata parsed raw fallback_to_raw)
    | .error (.outOfModel _) => none
    | .error (.fail _) =>
      match loads (clean_json_content (extractCandidate raw)) with
      | .ok parsed => some (mergeStep result_metadata parsed raw fallback_to_raw)
      | .error (.outOfModel _) => none
      | .error (.fail e2) =>
        some (false, if fallback_to_raw then .str raw else .null,
              some ("JSON parsing failed: " ++ e2))

/-- JSONParser.parse_lesson_plan. -/
def parse_lesson_plan (raw : List Char) : Option (Bool × Json × Option String) :=
  extract_json_from_response raw

/-! Round-trip infrastructure: serializing a well-formed value and
parsing it back is the identity. -/

/-- The characters of a string literal. -/
def lchars (s : String) : List Char := s.data

/-- Key membership in a dict. -/
def objHasKey : JsonObj → List Char → Bool
  | .nil, _ => false
  | .cons k' _ tl, k => k' = k || objHasKey tl k

/-- Key lookup in a dict. -/
def objGet : JsonObj → List Char → Option Json
  | .nil, _ => none
  | .cons k' v tl, k => if k' = k then some v else objGet tl k

/-- Concatenation of dicts as pair lists. -/
def objAppend : JsonObj → JsonObj → JsonObj
  | .nil, ys => ys
  | .cons k v tl, ys => .cons k v (objAppend tl ys)

mutual
/-- Well-formedness: every object's keys are distinct, as holds of any
value serialized from a Python dict. -/
def wfJson : Json → Bool
  | .null => true
  | .bool _ => true
  | .num _ => true
  | .str _ => true
  | .arr xs => wfList xs
  | .obj xs => wfObj xs
/-- Well-formedness of array elements. -/
def wfList : JsonList → Bool
  | .nil => true
  | .cons x tl => wfJson x && wfList tl
/-- Well-formedness of an object: no duplicate keys, values
well-formed. -/
def wfObj : JsonObj → Bool
  | .nil => true
  | .cons k v tl => !objHasKey tl k && wfJson v && wfObj tl
end

mutual
/-- A fuel bound for parsing a serialized value. -/
def jsize : Json → ℕ
  | .null => 1
  | .bool _ => 1
  | .num _ => 1
  | .str _ => 1
  | .arr xs => 1 + jsizeL xs
  | .obj xs => 1 + jsizeO xs
/-- Fuel bound for array tails. -/
def jsizeL : JsonList → ℕ
  | .nil => 0
  | .cons x tl => 1 + jsize x + jsizeL tl
/-- Fuel bound for object tails. -/
def jsizeO : JsonObj → ℕ
  | .nil => 0
  | .cons _ v tl => 1 + jsize v + jsizeO tl
end

/-- Characters that may legitimately follow a serialized value: nothing,
or a separator or closing bracket.  None of them can extend a number
token. -/
def stopOk : List Char → Bool
  | [] => true
  | c :: _ => c = ',' || c = '}' || c = ']'

/-- Does the text contain three consecutive backticks? -/
def hasTriple : List Char → Bool
  | '`' :: '`' :: '`' :: _ => true
  | _ :: rest => hasTriple rest
  | [] => false

theorem digitsVal_append (ds1 ds2 : List Char) (acc : ℕ) :
    digitsVal (ds1 ++ ds2) acc = digitsVal ds2 (digitsVal ds1 acc) := by
  induction ds1 generalizing acc with
  | nil => rfl
  | cons c rest ih => simp [digitsVal, ih]

theorem digitChar_val (n : ℕ) (h : n < 10) : (digitChar n).toNat - 48 = n := by
  interval_cases n <;> rfl

theorem digitChar_isDigit (n : ℕ) (h : n < 10) : isDigit (digitChar n) = true := by
  interval_cases n <;> rfl

theorem natReprFuel_ne_nil (fuel n : ℕ) (h : 1 ≤ fuel) :
    natReprFuel fuel n ≠ [] := by
  cases fuel with
  | zero => omega
  | succ f =>
    simp only [natReprFuel]
    split
    · simp
    · simp

theorem natReprFuel_all_digits (fuel : ℕ) : ∀ n, n < fuel →
    ∀ c ∈ natReprFuel fuel n, isDigit c = true := by
  induction fuel with
  | zero => intro n h; omega
  | succ f ih =>
    intro n hn c hc
    simp only [natReprFuel] at hc
    split at hc
    · simp at hc
      subst hc
      exact digitChar_isDigit n (by omega)
    · simp only [List.mem_append, List.mem_singleton] at hc
      rcases hc with hc | hc
      · exact ih (n / 10) (by omega) c hc
      · subst hc
        exact digitChar_isDigit (n % 10) (by omega)

theorem natReprFuel_val (fuel : ℕ) : ∀ n acc, n < fuel →
    digitsVal (natReprFuel fuel n) acc
      = acc * 10 ^ (natReprFuel fuel n).length + n := by
  induction fuel with
  | zero => intro n acc h; omega
  | succ f ih =>
    intro n acc hn
    simp only [natReprFuel]
    split
    · simp [digitsVal, digitChar_val n (by omega)]
      omega
    · rename_i hge
      rw [digitsVal_append]
      have hrec := ih (n / 10) acc (by omega)
      rw [hrec]
      simp [digitsVal, digitChar_val (n % 10) (by omega)]
      rw [pow_succ]
      have : 10 * (n / 10) + n % 10 = n := by omega
      ring_nf
      omega

theorem natRepr_val (n : ℕ) : digitsVal (natRepr n) 0 = n := by
  have := natReprFuel_val (n + 1) n 0 (by omega)
  simpa [natRepr] using this

theorem natRepr_all_digits (n : ℕ) : ∀ c ∈ natRepr n, isDigit c = true :=
  natReprFuel_all_digits (n + 1) n (by omega)

theorem natRepr_ne_nil (n : ℕ) : natRepr n ≠ [] :=
  natReprFuel_ne_nil (n + 1) n (by omega)

theorem takeWhile_all_append (p : Char → Bool) (ds rest : List Char)
    (hds : ∀ c ∈ ds, p c = true) (hrest : ∀ c r, rest = c :: r → p c = false) :
    (ds ++ rest).takeWhile p = ds ∧ (ds ++ rest).dropWhile p = rest := by
  induction ds with
  | nil =>
    cases rest with
    | nil => simp
    | cons c r =>
      have := hrest c r rfl
      simp [List.takeWhile, List.dropWhile, this]
  | cons d ds' ih =>
    have hd := hds d (by simp)
    have ih' := ih (fun c hc => hds c (by simp [hc]))
    simp [List.takeWhile, List.dropWhile, hd, ih'.1, ih'.2]

theorem natReprFuel_head (fuel : ℕ) : ∀ n, 0 < n → n < fuel →
    ∃ c cs, natReprFuel fuel n = c :: cs ∧ isDigit c = true ∧ c ≠ '0' := by
  induction fuel with
  | zero => intro n h1 h2; omega
  | succ f ih =>
    intro n h1 h2
    simp only [natReprFuel]
    split
    · refine ⟨digitChar n, [], rfl, digitChar_isDigit n (by omega), ?_⟩
      rename_i hlt
      interval_cases n <;> decide
    · rename_i hge
      obtain ⟨c, cs, heq, hd, h0⟩ := ih (n / 10) (by omega) (by omega)
      exact ⟨c, cs ++ [digitChar (n % 10)], by rw [heq]; rfl, hd, h0⟩

theorem stop_not_digit (rest : List Char) (hstop : stopOk rest = true) :
    ∀ c r, rest = c :: r → isDigit c = false := by
  intro c r hr
  subst hr
  simp only [stopOk, Bool.or_eq_true, decide_eq_true_eq] at hstop
  rcases hstop with (h | h) | h <;> subst h <;> rfl

theorem natRepr_tail_digits (n : ℕ) (c : Char) (cs : List Char)
    (h : natRepr n = c :: cs) : ∀ x ∈ cs, isDigit x = true := by
  intro x hx
  exact natRepr_all_digits n x (by rw [h]; simp [hx])

theorem numIntPart_natRepr (n : ℕ) (rest : List Char)
    (hrest : ∀ c r, rest = c :: r → isDigit c = false) :
    numIntPart (natRepr n ++ rest) = some (natRepr n, rest) := by
  by_cases hn : n = 0
  · subst hn
    cases rest with
    | nil => rfl
    | cons c r => simp [natRepr, natReprFuel, digitChar, numIntPart]
  · obtain ⟨c, cs, heq, hdig, hne0⟩ :=
      natReprFuel_head (n + 1) n (by omega) (by omega)
    have heq' : natRepr n = c :: cs := heq
    rw [heq']
    have htw := takeWhile_all_append isDigit cs rest
      (natRepr_tail_digits n c cs heq') hrest
    simp only [List.cons_append, numIntPart, if_neg hne0]
    rw [if_pos hdig, htw.1, htw.2]

theorem numFracPart_stop (rest : List Char) (hstop : stopOk rest = true) :
    numFracPart rest = (false, rest) := by
  cases rest with
  | nil => rfl
  | cons c r =>
    simp only [stopOk, Bool.or_eq_true, decide_eq_true_eq] at hstop
    rcases hstop with (h | h) | h <;> subst h <;>
      (cases r with
       | nil => rfl
       | cons c2 r2 => rfl)

theorem numExpPart_stop (rest : List Char) (hstop : stopOk rest = true) :
    numExpPart rest = (false, rest) := by
  cases rest with
  | nil => rfl
  | cons c r =>
    simp only [stopOk, Bool.or_eq_true, decide_eq_true_eq] at hstop
    rcases hstop with (h | h) | h <;> subst h <;> rfl

theorem scanNumAux_natRepr (neg : Bool) (m : ℕ) (rest : List Char)
    (hstop : stopOk rest = true) :
    scanNumAux neg (natRepr m ++ rest)
      = some (.ok (.num (if neg then -(m:ℤ) else (m:ℤ)), rest)) := by
  have hnd := stop_not_digit rest hstop
  simp only [scanNumAux]
  rw [numIntPart_natRepr m rest hnd]
  simp only [numFracPart_stop rest hstop, numExpPart_stop rest hstop]
  simp [natRepr_val]

theorem scanNumber_intRepr (n : ℤ) (rest : List Char) (hstop : stopOk rest = true) :
    scanNumber (intRepr n ++ rest) = some (.ok (.num n, rest)) := by
  by_cases hneg : n < 0
  · have hrepr : intRepr n ++ rest = '-' :: (natRepr n.natAbs ++ rest) := by
      simp [intRepr, if_pos hneg]
    rw [hrepr]
    have : scanNumber ('-' :: (natRepr n.natAbs ++ rest))
        = scanNumAux true (natRepr n.natAbs ++ rest) := rfl
    rw [this, scanNumAux_natRepr true n.natAbs rest hstop]
    have hv : -((n.natAbs : ℕ) : ℤ) = n := by omega
    simp only [if_pos rfl, hv]
    simp
  · have hrepr : intRepr n ++ rest = natRepr n.natAbs ++ rest := by
      simp [intRepr, if_neg hneg]
    rw [hrepr]
    obtain ⟨c, cs, heq, hdig⟩ : ∃ c cs, natRepr n.natAbs = c :: cs
        ∧ isDigit c = true := by
      by_cases h0 : n.natAbs = 0
      · exact ⟨'0', [], by rw [h0]; rfl, rfl⟩
      · obtain ⟨c, cs, heq, hd, _⟩ :=
          natReprFuel_head (n.natAbs + 1) n.natAbs (by omega) (by omega)
        exact ⟨c, cs, heq, hd⟩
    have hcne : c ≠ '-' := by
      intro hc
      subst hc
      exact absurd hdig (by decide)
    rw [heq, List.cons_append]
    have hred : scanNumber (c :: (cs ++ rest)) = scanNumAux false (c :: (cs ++ rest)) := by
      simp only [scanNumber]
      split
      · rename_i heq2
        rw [List.cons.injEq] at heq2
        exact absurd heq2.1 hcne
      · rfl
    rw [hred, ← List.cons_append, ← heq, scanNumAux_natRepr false n.natAbs rest hstop]
    have hv : ((n.natAbs : ℕ) : ℤ) = n := by omega
    simp [hv]

theorem hexVal_hexChar (d : ℕ) (h : d < 16) : hexVal (hexChar d) = some d := by
  interval_cases d <;> rfl

theorem char_valid_range (c : Char) :
    c.toNat < 55296 ∨ (57343 < c.toNat ∧ c.toNat < 1114112) := by
  have h := c.valid
  simpa [Char.toNat, UInt32.isValidChar, Nat.isValidChar] using h

theorem strStep_plain (c : Char) (rest : List Char)
    (h1 : c ≠ '"') (h2 : c ≠ '\\') :
    strStep (c :: rest) = parsePlain c rest := by
  rw [strStep.eq_def]
  split
  · rename_i heq
    cases heq
  · rename_i r heq
    rw [List.cons.injEq] at heq
    exact absurd heq.1 h1
  · rename_i a b d e r heq
    rw [List.cons.injEq] at heq
    exact absurd heq.1 h2
  · rename_i e r heq
    rw [List.cons.injEq] at heq
    exact absurd heq.1 h2
  · rename_i heq
    rw [List.cons.injEq] at heq
    exact absurd heq.1 h2
  · rename_i c2 r heq
    rw [List.cons.injEq] at heq
    rw [heq.1, heq.2]

theorem escapeChar_length_pos (c : Char) : 1 ≤ (escapeChar c).length := by
  unfold escapeChar
  split_ifs <;> simp [hex4]

theorem parseEsc_ok (e ch : Char) (T : List Char) (he : e ≠ 'u')
    (h : escTable e = some ch) : parseEsc e T = .push ch T := by
  rw [parseEsc, if_neg he, h]

theorem parseU_hex (n : ℕ) (rest : List Char) (hn : n < 65536)
    (hs1 : ¬(55296 ≤ n ∧ n ≤ 56319)) (hs2 : ¬(56320 ≤ n ∧ n ≤ 57343)) :
    parseU (hexChar (n / 4096 % 16)) (hexChar (n / 256 % 16))
      (hexChar (n / 16 % 16)) (hexChar (n % 16)) rest
      = .push (Char.ofNat n) rest := by
  rw [parseU,
    hexVal_hexChar (n / 4096 % 16) (by omega),
    hexVal_hexChar (n / 256 % 16) (by omega),
    hexVal_hexChar (n / 16 % 16) (by omega),
    hexVal_hexChar (n % 16) (by omega)]
  have hx : 4096 * (n / 4096 % 16) + 256 * (n / 256 % 16)
      + 16 * (n / 16 % 16) + n % 16 = n := by
    omega
  simp only [hx]
  rw [if_neg hs1, if_neg hs2]

theorem parseU_surrogate (hi lo : ℕ) (rest : List Char)
    (hhi : 55296 ≤ hi ∧ hi ≤ 56319) (hlo : 56320 ≤ lo ∧ lo ≤ 57343) :
    parseU (hexChar (hi / 4096 % 16)) (hexChar (hi / 256 % 16))
      (hexChar (hi / 16 % 16)) (hexChar (hi % 16))
      ('\\' :: 'u' :: hexChar (lo / 4096 % 16) :: hexChar (lo / 256 % 16)
        :: hexChar (lo / 16 % 16) :: hexChar (lo % 16) :: rest)
      = .push (Char.ofNat (65536 + 1024 * (hi - 55296) + (lo - 56320))) rest := by
  rw [parseU,
    hexVal_hexChar (hi / 4096 % 16) (by omega),
    hexVal_hexChar (hi / 256 % 16) (by omega),
    hexVal_hexChar (hi / 16 % 16) (by omega),
    hexVal_hexChar (hi % 16) (by omega)]
  have hhiv : 4096 * (hi / 4096 % 16) + 256 * (hi / 256 % 16)
      + 16 * (hi / 16 % 16) + hi % 16 = hi := by
    omega
  simp only [hhiv]
  rw [if_pos hhi]
  rw [hexVal_hexChar (lo / 4096 % 16) (by omega),
    hexVal_hexChar (lo / 256 % 16) (by omega),
    hexVal_hexChar (lo / 16 % 16) (by omega),
    hexVal_hexChar (lo % 16) (by omega)]
  have hlov : 4096 * (lo / 4096 % 16) + 256 * (lo / 256 % 16)
      + 16 * (lo / 16 % 16) + lo % 16 = lo := by
    omega
  simp only [hlov]
  rw [if_pos hlo]

theorem strStep_u (a b c d : Char) (rest : List Char) :
    strStep ('\\' :: 'u' :: a :: b :: c :: d :: rest) = parseU a b c d rest := rfl

theorem strStep_escape (c : Char) (T : List Char) :
    strStep (escapeChar c ++ T) = .push c T := by
  have hvalid := char_valid_range c
  unfold escapeChar
  by_cases h1 : c = '"'
  · subst h1
    rw [if_pos rfl]
    exact parseEsc_ok '"' '"' T (by decide) rfl
  rw [if_neg h1]
  by_cases h2 : c = '\\'
  · subst h2
    rw [if_pos rfl]
    exact parseEsc_ok '\\' '\\' T (by decide) rfl
  rw [if_neg h2]
  by_cases h3 : c = '\n'
  · subst h3
    rw [if_pos rfl]
    exact parseEsc_ok 'n' '\n' T (by decide) rfl
  rw [if_neg h3]
  by_cases h4 : c = '\r'
  · subst h4
    rw [if_pos rfl]
    exact parseEsc_ok 'r' '\r' T (by decide) rfl
  rw [if_neg h4]
  by_cases h5 : c = '\t'
  · subst h5
    rw [if_pos rfl]
    exact parseEsc_ok 't' '\t' T (by decide) rfl
  rw [if_neg h5]
  by_cases h6 : c.toNat = 8
  · rw [if_pos h6]
    have hc : Char.ofNat 8 = c := by
      rw [← h6, Char.ofNat_toNat]
    rw [← hc]
    exact parseEsc_ok 'b' (Char.ofNat 8) T (by decide) rfl
  rw [if_neg h6]
  by_cases h7 : c.toNat = 12
  · rw [if_pos h7]
    have hc : Char.ofNat 12 = c := by
      rw [← h7, Char.ofNat_toNat]
    rw [← hc]
    exact parseEsc_ok 'f' (Char.ofNat 12) T (by decide) rfl
  rw [if_neg h7]
  by_cases h8 : c.toNat < 32 ∨ 126 < c.toNat
  · rw [if_pos h8]
    by_cases h9 : c.toNat < 65536
    · rw [if_pos h9]
      simp only [hex4, List.cons_append, List.nil_append]
      rw [strStep_u, parseU_hex c.toNat T (by omega) (by omega) (by omega),
        Char.ofNat_toNat]
    · rw [if_neg h9]
      have hrange : 65536 ≤ c.toNat ∧ c.toNat < 1114112 := by omega
      simp only [hex4, List.cons_append, List.nil_append, List.append_assoc]
      rw [strStep_u, parseU_surrogate (55296 + (c.toNat - 65536) / 1024)
        (56320 + (c.toNat - 65536) % 1024) T (by omega) (by omega)]
      have hcomb : 65536 + 1024 * (55296 + (c.toNat - 65536) / 1024 - 55296)
          + (56320 + (c.toNat - 65536) % 1024 - 56320) = c.toNat := by
        omega
      rw [hcomb, Char.ofNat_toNat]
  · rw [if_neg h8]
    push_neg at h8
    show strStep (c :: T) = .push c T
    rw [strStep_plain c T h1 h2, parsePlain, if_neg (by omega)]

theorem parseStringBody_succ (fuel : ℕ) (s : List Char) :
    parseStringBody (fuel + 1) s =
      match strStep s with
      | .done rest => .ok ([], rest)
      | .push c rest =>
        match parseStringBody fuel rest with
        | .ok (out, r) => .ok (c :: out, r)
        | .error e => .error e
      | .perr e => .error e := rfl

theorem parseStringBody_escape (s : List Char) (rest : List Char) :
    ∀ fuel, (escapeString s).length < fuel →
    parseStringBody fuel (escapeString s ++ '"' :: rest) = .ok (s, rest) := by
  induction s with
  | nil =>
    intro fuel hfuel
    obtain ⟨f, rfl⟩ : ∃ f, fuel = f + 1 := ⟨fuel - 1, by omega⟩
    rfl
  | cons c s' ih =>
    intro fuel hfuel
    obtain ⟨f, rfl⟩ : ∃ f, fuel = f + 1 := ⟨fuel - 1, by omega⟩
    have hlen : (escapeString (c :: s')).length
        = (escapeChar c).length + (escapeString s').length := by
      simp [escapeString]
    have hrec : (escapeString s').length < f := by
      have h1 := escapeChar_length_pos c
      omega
    have hstep : escapeString (c :: s') ++ '"' :: rest
        = escapeChar c ++ (escapeString s' ++ '"' :: rest) := by
      simp [escapeString]
    rw [hstep]
    simp only [parseStringBody_succ, strStep_escape, ih f hrec]

theorem parseString_escape (s rest : List Char) :
    parseString (escapeString s ++ '"' :: rest) = .ok (s, rest) := by
  apply parseStringBody_escape
  rw [List.length_append, List.length_cons]
  omega

/-- The head character of a serialized value: not whitespace (in either
whitespace class), not a closing bracket, not a backtick. -/
def okHead (c : Char) : Bool :=
  !isJsonWs c && !isRegexWs c && !(c == ']') && !(c == '`')

theorem okHead_of_digit (c : Char) (h : isDigit c = true) : okHead c = true := by
  have h1 : isJsonWs c = false := by
    cases hb : isJsonWs c with
    | false => rfl
    | true =>
      exfalso
      simp only [isJsonWs, Bool.or_eq_true, decide_eq_true_eq] at hb
      rcases hb with ((hb | hb) | hb) | hb <;> subst hb <;> exact absurd h (by decide)
  have h2 : isRegexWs c = false := by
    cases hb : isRegexWs c with
    | false => rfl
    | true =>
      exfalso
      simp only [isRegexWs, Bool.or_eq_true, decide_eq_true_eq] at hb
      rcases hb with ((((hb | hb) | hb) | hb) | hb) | hb
      · subst hb; exact absurd h (by decide)
      · subst hb; exact absurd h (by decide)
      · subst hb; exact absurd h (by decide)
      · subst hb; exact absurd h (by decide)
      · have hc := Char.ofNat_toNat c
        rw [hb] at hc
        rw [← hc] at h
        exact absurd h (by decide)
      · have hc := Char.ofNat_toNat c
        rw [hb] at hc
        rw [← hc] at h
        exact absurd h (by decide)
  have h3 : (c == ']') = false := by
    cases hb : (c == ']') with
    | false => rfl
    | true =>
      rw [beq_iff_eq] at hb
      subst hb
      exact absurd h (by decide)
  have h4 : (c == '`') = false := by
    cases hb : (c == '`') with
    | false => rfl
    | true =>
      rw [beq_iff_eq] at hb
      subst hb
      exact absurd h (by decide)
  simp [okHead, h1, h2, h3, h4]

theorem okHead_not_jsonWs (c : Char) (h : okHead c = true) : isJsonWs c = false := by
  simp only [okHead, Bool.and_eq_true, Bool.not_eq_true'] at h
  exact h.1.1.1

theorem okHead_not_regexWs (c : Char) (h : okHead c = true) : isRegexWs c = false := by
  simp only [okHead, Bool.and_eq_true, Bool.not_eq_true'] at h
  exact h.1.1.2

theorem okHead_ne_rbracket (c : Char) (h : okHead c = true) : c ≠ ']' := by
  simp only [okHead, Bool.and_eq_true, Bool.not_eq_true', beq_eq_false_iff_ne] at h
  exact h.1.2

theorem okHead_ne_backtick (c : Char) (h : okHead c = true) : c ≠ '`' := by
  simp only [okHead, Bool.and_eq_true, Bool.not_eq_true', beq_eq_false_iff_ne] at h
  exact h.2

theorem intRepr_head (n : ℤ) :
    ∃ c cs, intRepr n = c :: cs ∧ (isDigit c = true ∨ c = '-') := by
  by_cases hneg : n < 0
  · exact ⟨'-', natRepr n.natAbs, by simp [intRepr, if_pos hneg], Or.inr rfl⟩
  · by_cases h0 : n.natAbs = 0
    · refine ⟨'0', [], ?_, Or.inl rfl⟩
      simp [intRepr, if_neg hneg, h0, natRepr, natReprFuel, digitChar]
    · obtain ⟨c, cs, heq, hd, _⟩ :=
        natReprFuel_head (n.natAbs + 1) n.natAbs (by omega) (by omega)
      exact ⟨c, cs, by simp [intRepr, if_neg hneg, natRepr, heq], Or.inl hd⟩

theorem dumps_head (v : Json) : ∃ c cs, dumps v = c :: cs ∧ okHead c = true := by
  cases v with
  | null => exact ⟨'n', _, rfl, by decide⟩
  | bool b =>
    cases b
    · exact ⟨'f', _, rfl, by decide⟩
    · exact ⟨'t', _, rfl, by decide⟩
  | num n =>
    obtain ⟨c, cs, heq, hc⟩ := intRepr_head n
    refine ⟨c, cs, by simp [dumps, heq], ?_⟩
    rcases hc with h | h
    · exact okHead_of_digit c h
    · subst h; decide
  | str s => exact ⟨'"', escapeString s ++ ['"'], rfl, by decide⟩
  | arr xs =>
    cases xs with
    | nil => exact ⟨'[', _, rfl, by decide⟩
    | cons x tl => exact ⟨'[', _, rfl, by decide⟩
  | obj ms =>
    cases ms with
    | nil => exact ⟨'{', _, rfl, by decide⟩
    | cons k v tl => exact ⟨'{', _, rfl, by decide⟩

theorem dropWs_cons (c : Char) (t : List Char) (h : isJsonWs c = false) :
    dropWs (c :: t) = c :: t := by
  simp [dropWs, List.dropWhile_cons, h]

/-- objAppend with an empty right side. -/
theorem objAppend_nil_right : ∀ a : JsonObj, objAppend a .nil = a
  | .nil => rfl
  | .cons k v tl => by rw [objAppend, objAppend_nil_right tl]

theorem objAppend_assoc : ∀ a b c : JsonObj,
    objAppend (objAppend a b) c = objAppend a (objAppend b c)
  | .nil, _, _ => rfl
  | .cons k v tl, b, c => by
    simp [objAppend, objAppend_assoc tl b c]

theorem objHasKey_append : ∀ (a b : JsonObj) (k : List Char),
    objHasKey (objAppend a b) k = (objHasKey a k || objHasKey b k)
  | .nil, b, k => by simp [objAppend, objHasKey]
  | .cons k' v tl, b, k => by
    simp [objAppend, objHasKey, objHasKey_append tl b k, Bool.or_assoc]

theorem objInsert_not_mem : ∀ (acc : JsonObj) (k : List Char) (v : Json),
    objHasKey acc k = false →
    objInsert acc k v = objAppend acc (.cons k v .nil)
  | .nil, _, _, _ => rfl
  | .cons k' v' tl, k, v, h => by
    simp only [objHasKey, Bool.or_eq_false_iff, decide_eq_false_iff_not] at h
    simp [objInsert, objAppend, if_neg h.1, objInsert_not_mem tl k v h.2]

theorem objFromPairsAux_disjoint : ∀ (ms acc : JsonObj),
    wfObj ms = true →
    (∀ k, objHasKey ms k = true → objHasKey acc k = false) →
    objFromPairsAux acc ms = objAppend acc ms
  | .nil, acc, _, _ => by
    simp [objFromPairsAux, objAppend_nil_right]
  | .cons k v tl, acc, hwf, hdisj => by
    simp only [wfObj, Bool.and_eq_true, Bool.not_eq_true'] at hwf
    obtain ⟨⟨hk, _⟩, hwtl⟩ := hwf
    have hacck : objHasKey acc k = false := by
      apply hdisj
      simp [objHasKey]
    rw [objFromPairsAux, objInsert_not_mem acc k v hacck]
    rw [objFromPairsAux_disjoint tl (objAppend acc (.cons k v .nil)) hwtl ?_]
    · rw [objAppend_assoc]
      rfl
    · intro k2 hk2
      rw [objHasKey_append]
      have h1 : objHasKey acc k2 = false := by
        apply hdisj
        simp [objHasKey, hk2]
      have h2 : objHasKey (JsonObj.cons k v .nil) k2 = false := by
        simp only [objHasKey, Bool.or_eq_false_iff]
        refine ⟨?_, trivial⟩
        simp only [decide_eq_false_iff_not]
        intro hkk
        subst hkk
        rw [hk2] at hk
        cases hk
      rw [h1, h2]
      rfl

theorem objFromPairs_wf (ms : JsonObj) (h : wfObj ms = true) :
    objFromPairs ms = ms := by
  rw [objFromPairs, objFromPairsAux_disjoint ms .nil h (fun k _ => rfl)]
  rfl

theorem jsize_pos : ∀ v : Json, 1 ≤ jsize v
  | .null => le_refl 1
  | .bool _ => le_refl 1
  | .num _ => le_refl 1
  | .str _ => le_refl 1
  | .arr xs => by unfold jsize; omega
  | .obj ms => by unfold jsize; omega

mutual
theorem jsize_le_dumps : ∀ v : Json, jsize v ≤ (dumps v).length
  | .null => by simp [jsize, dumps]
  | .bool b => by cases b <;> simp [jsize, dumps]
  | .num n => by
    obtain ⟨c, cs, heq, _⟩ := intRepr_head n
    simp [jsize, dumps, heq]
  | .str s => by simp [jsize, dumps]
  | .arr xs => by
    cases xs with
    | nil => simp [jsize, jsizeL, dumps]
    | cons x tl =>
      have h1 := jsize_le_dumps x
      have h2 := jsizeL_le_tail tl
      simp only [jsize, jsizeL, dumps, List.length_cons, List.length_append]
      omega
  | .obj ms => by
    cases ms with
    | nil => simp [jsize, jsizeO, dumps]
    | cons k v tl =>
      have h1 := jsize_le_dumps v
      have h2 := jsizeO_le_tail tl
      simp only [jsize, jsizeO, dumps, List.length_cons, List.length_append]
      omega
theorem jsizeL_le_tail : ∀ xs : JsonList, jsizeL xs ≤ (dumpsListTail xs).length
  | .nil => by simp [jsizeL, dumpsListTail]
  | .cons x tl => by
    have h1 := jsize_le_dumps x
    have h2 := jsizeL_le_tail tl
    simp only [jsizeL, dumpsListTail, List.length_cons, List.length_append]
    omega
theorem jsizeO_le_tail : ∀ ms : JsonObj, jsizeO ms ≤ (dumpsObjTail ms).length
  | .nil => by simp [jsizeO, dumpsObjTail]
  | .cons k v tl => by
    have h1 := jsize_le_dumps v
    have h2 := jsizeO_le_tail tl
    simp only [jsizeO, dumpsObjTail, List.length_cons, List.length_append]
    omega
end

/-- The text of a nonempty array between its brackets. -/
def bodyL : JsonList → List Char
  | .nil => []
  | .cons x tl => dumps x ++ dumpsListTail tl

/-- The text of a nonempty object between its braces. -/
def bodyO : JsonObj → List Char
  | .nil => []
  | .cons k v tl =>
    '"' :: (escapeString k ++ '"' :: ':' :: ' ' :: dumps v) ++ dumpsObjTail tl

theorem dumps_arr_cons (x : Json) (tl : JsonList) (rest : List Char) :
    dumps (.arr (.cons x tl)) ++ rest
      = '[' :: (bodyL (.cons x tl) ++ ']' :: rest) := by
  simp [dumps, bodyL]

theorem dumps_obj_cons (k : List Char) (v : Json) (tl : JsonObj) (rest : List Char) :
    dumps (.obj (.cons k v tl)) ++ rest
      = '{' :: (bodyO (.cons k v tl) ++ '}' :: rest) := by
  simp [dumps, bodyO]

theorem dropWs_cons_ws (c : Char) (t : List Char) (h : isJsonWs c = true) :
    dropWs (c :: t) = dropWs t := by
  simp [dropWs, List.dropWhile_cons, h]

theorem scanValue_str_step (f : ℕ) (r rr : List Char) (s : List Char)
    (h : parseString r = .ok (s, rr)) :
    scanValue (f + 1) ('"' :: r) = .ok (.str s, rr) := by
  have hred : scanValue (f + 1) ('"' :: r)
      = (match parseString r with
        | .ok (s2, r2) => Except.ok (Json.str s2, r2)
        | .error e => Except.error e) := rfl
  rw [hred, h]

theorem scanValue_arr_nil_red (f : ℕ) (r2 : List Char) :
    scanValue (f + 1) ('[' :: ']' :: r2) = .ok (.arr .nil, r2) := rfl

theorem scanValue_obj_nil_red (f : ℕ) (r2 : List Char) :
    scanValue (f + 1) ('{' :: '}' :: r2) = .ok (.obj .nil, r2) := rfl

theorem scanValue_arr_step (f : ℕ) (c : Char) (t r3 : List Char) (xs : JsonList)
    (hws : isJsonWs c = false) (hbr : c ≠ ']')
    (h : parseItems f (c :: t) = .ok (xs, r3)) :
    scanValue (f + 1) ('[' :: c :: t) = .ok (.arr xs, r3) := by
  have hred : scanValue (f + 1) ('[' :: c :: t)
      = (match dropWs (c :: t) with
        | ']' :: r2 => Except.ok (Json.arr .nil, r2)
        | r2 =>
          match parseItems f r2 with
          | .ok (ys, r4) => Except.ok (Json.arr ys, r4)
          | .error e => Except.error e) := rfl
  rw [hred, dropWs_cons c t hws]
  split
  · rename_i r2 heq
    rw [List.cons.injEq] at heq
    exact absurd heq.1 hbr
  · rw [h]

theorem scanValue_obj_step (f : ℕ) (r r3 : List Char) (ms : JsonObj)
    (h : parseMembers f ('"' :: r) = .ok (ms, r3)) :
    scanValue (f + 1) ('{' :: '"' :: r) = .ok (.obj (objFromPairs ms), r3) := by
  have hred : scanValue (f + 1) ('{' :: '"' :: r)
      = (match parseMembers f ('"' :: r) with
        | .ok (ps, r4) => Except.ok (Json.obj (objFromPairs ps), r4)
        | .error e => Except.error e) := rfl
  rw [hred, h]

theorem scanValue_num_step (f : ℕ) (c : Char) (t : List Char)
    (res : Except PErr (Json × List Char))
    (h1 : c ≠ '"') (h2 : c ≠ '{') (h3 : c ≠ '[') (h4 : c ≠ 'n') (h5 : c ≠ 't')
    (h6 : c ≠ 'f') (h : scanNumber (c :: t) = some res) :
    scanValue (f + 1) (c :: t) = res := by
  have hred : scanValue (f + 1) (c :: t)
      = (if c = '"' then
          match parseString t with
          | .ok (s, r) => Except.ok (Json.str s, r)
          | .error e => Except.error e
        else if c = '{' then
          match dropWs t with
          | '}' :: r2 => Except.ok (Json.obj JsonObj.nil, r2)
          | r2 =>
            match parseMembers f r2 with
            | .ok (ps, r3) => Except.ok (Json.obj (objFromPairs ps), r3)
            | .error e => Except.error e
        else if c = '[' then
          match dropWs t with
          | ']' :: r2 => Except.ok (Json.arr JsonList.nil, r2)
          | r2 =>
            match parseItems f r2 with
            | .ok (xs, r3) => Except.ok (Json.arr xs, r3)
            | .error e => Except.error e
        else if c = 'n' ∧ t.take 3 = ['u', 'l', 'l'] then
          Except.ok (Json.null, t.drop 3)
        else if c = 't' ∧ t.take 3 = ['r', 'u', 'e'] then
          Except.ok (Json.bool true, t.drop 3)
        else if c = 'f' ∧ t.take 4 = ['a', 'l', 's', 'e'] then
          Except.ok (Json.bool false, t.drop 4)
        else
          match scanNumber (c :: t) with
          | some res2 => res2
          | none =>
            if isNonFiniteStart (c :: t) then
              Except.error (PErr.outOfModel "non-finite float literal")
            else Except.error (PErr.fail "Expecting value")) := rfl
  rw [hred, if_neg h1, if_neg h2, if_neg h3,
    if_neg (fun hh => h4 hh.1), if_neg (fun hh => h5 hh.1),
    if_neg (fun hh => h6 hh.1), h]

theorem parseItems_step_done (f : ℕ) (cs r2 : List Char) (x : Json)
    (h : scanValue f cs = .ok (x, ']' :: r2)) :
    parseItems (f + 1) cs = .ok (.cons x .nil, r2) := by
  simp [parseItems, h, dropWs_cons, isJsonWs]

theorem parseItems_step_comma (f : ℕ) (cs r2 r3 : List Char) (x : Json)
    (xs : JsonList)
    (h : scanValue f cs = .ok (x, ',' :: r2))
    (hrec : parseItems f (dropWs r2) = .ok (xs, r3)) :
    parseItems (f + 1) cs = .ok (.cons x xs, r3) := by
  simp [parseItems, h, hrec, dropWs_cons, isJsonWs]

theorem parseMembers_step_done (f : ℕ) (r W r2 : List Char) (k : List Char)
    (v : Json)
    (hkey : parseString r = .ok (k, ':' :: ' ' :: W))
    (hval : scanValue f (dropWs W) = .ok (v, '}' :: r2)) :
    parseMembers (f + 1) ('"' :: r) = .ok (.cons k v .nil, r2) := by
  simp [parseMembers, hkey, hval, dropWs_cons, dropWs_cons_ws, isJsonWs]

theorem parseMembers_step_comma (f : ℕ) (r W r2 r5 : List Char) (k : List Char)
    (v : Json) (ms : JsonObj)
    (hkey : parseString r = .ok (k, ':' :: ' ' :: W))
    (hval : scanValue f (dropWs W) = .ok (v, ',' :: r2))
    (hrec : parseMembers f (dropWs r2) = .ok (ms, r5)) :
    parseMembers (f + 1) ('"' :: r) = .ok (.cons k v ms, r5) := by
  simp [parseMembers, hkey, hval, hrec, dropWs_cons, dropWs_cons_ws, isJsonWs]

theorem parser_roundtrip (fuel : ℕ) :
    (∀ v rest, wfJson v = true → stopOk rest = true → jsize v ≤ fuel →
      scanValue fuel (dumps v ++ rest) = .ok (v, rest))
  ∧ (∀ xs rest, wfList xs = true → stopOk rest = true → jsizeL xs ≤ fuel →
      xs ≠ JsonList.nil →
      parseItems fuel (bodyL xs ++ ']' :: rest) = .ok (xs, rest))
  ∧ (∀ ms rest, wfObj ms = true → stopOk rest = true → jsizeO ms ≤ fuel →
      ms ≠ JsonObj.nil →
      parseMembers fuel (bodyO ms ++ '}' :: rest) = .ok (ms, rest)) := by
  induction fuel with
  | zero =>
    refine ⟨?_, ?_, ?_⟩
    · intro v rest _ _ hsz
      have := jsize_pos v
      omega
    · intro xs rest _ _ hsz hne
      cases xs with
      | nil => exact absurd rfl hne
      | cons x tl =>
        simp only [jsizeL] at hsz
        omega
    · intro ms rest _ _ hsz hne
      cases ms with
      | nil => exact absurd rfl hne
      | cons k v tl =>
        simp only [jsizeO] at hsz
        omega
  | succ f ih =>
    obtain ⟨ihV, ihL, ihO⟩ := ih
    refine ⟨?_, ?_, ?_⟩
    · intro v rest hwf hstop hsz
      cases v with
      | null =>
        simp only [dumps, List.cons_append, List.nil_append]
        rfl
      | bool b =>
        cases b <;> (simp only [dumps, List.cons_append, List.nil_append]; rfl)
      | num n =>
        simp only [dumps]
        obtain ⟨c, cs, heq, hc⟩ := intRepr_head n
        rw [heq, List.cons_append]
        have hne : c ≠ '"' ∧ c ≠ '{' ∧ c ≠ '[' ∧ c ≠ 'n' ∧ c ≠ 't' ∧ c ≠ 'f' := by
          rcases hc with h | h
          · refine ⟨?_, ?_, ?_, ?_, ?_, ?_⟩ <;>
              (intro hcc; subst hcc; exact absurd h (by decide))
          · subst h
            exact ⟨by decide, by decide, by decide, by decide, by decide, by decide⟩
        have hnum : scanNumber (c :: (cs ++ rest)) = some (.ok (.num n, rest)) := by
          rw [← List.cons_append, ← heq]
          exact scanNumber_intRepr n rest hstop
        exact scanValue_num_step f c (cs ++ rest) _ hne.1 hne.2.1 hne.2.2.1
          hne.2.2.2.1 hne.2.2.2.2.1 hne.2.2.2.2.2 hnum
      | str s =>
        simp only [dumps, List.cons_append]
        have hr : (escapeString s ++ ['"']) ++ rest = escapeString s ++ '"' :: rest := by
          simp
        rw [hr]
        exact scanValue_str_step f _ rest s (parseString_escape s rest)
      | arr xs =>
        simp only [wfJson] at hwf
        simp only [jsize] at hsz
        cases xs with
        | nil =>
          simp only [dumps, List.cons_append, List.nil_append]
          exact scanValue_arr_nil_red f rest
        | cons x tl =>
          rw [dumps_arr_cons x tl rest]
          obtain ⟨c, cs, hceq, hok⟩ := dumps_head x
          have hb : bodyL (.cons x tl) ++ ']' :: rest
              = c :: (cs ++ (dumpsListTail tl ++ ']' :: rest)) := by
            simp [bodyL, hceq]
          have hm := ihL (JsonList.cons x tl) rest hwf hstop (by omega) (by simp)
          rw [hb] at hm ⊢
          exact scanValue_arr_step f c _ rest (JsonList.cons x tl)
            (okHead_not_jsonWs c hok) (okHead_ne_rbracket c hok) hm
      | obj ms =>
        simp only [wfJson] at hwf
        simp only [jsize] at hsz
        cases ms with
        | nil =>
          simp only [dumps, List.cons_append, List.nil_append]
          exact scanValue_obj_nil_red f rest
        | cons k v tl =>
          rw [dumps_obj_cons k v tl rest]
          have hb : bodyO (.cons k v tl) ++ '}' :: rest
              = '"' :: (escapeString k ++ '"' ::
                  (':' :: ' ' :: (dumps v ++ (dumpsObjTail tl ++ '}' :: rest)))) := by
            simp [bodyO]
          have hm := ihO (JsonObj.cons k v tl) rest hwf hstop (by omega) (by simp)
          rw [hb] at hm ⊢
          have happ := scanValue_obj_step f _ rest (JsonObj.cons k v tl) hm
          rw [happ, objFromPairs_wf _ hwf]
    · intro xs rest hwf hstop hsz hne
      cases xs with
      | nil => exact absurd rfl hne
      | cons x tl =>
        simp only [wfList, Bool.and_eq_true] at hwf
        simp only [jsizeL] at hsz
        have hstopT : stopOk (dumpsListTail tl ++ ']' :: rest) = true := by
          cases tl <;> rfl
        have hscan : scanValue f (dumps x ++ (dumpsListTail tl ++ ']' :: rest))
            = .ok (x, dumpsListTail tl ++ ']' :: rest) :=
          ihV x _ hwf.1 hstopT (by omega)
        have hshape : bodyL (.cons x tl) ++ ']' :: rest
            = dumps x ++ (dumpsListTail tl ++ ']' :: rest) := by
          simp [bodyL]
        rw [hshape]
        cases tl with
        | nil =>
          rw [show dumpsListTail JsonList.nil ++ ']' :: rest = ']' :: rest from rfl]
            at hscan
          exact parseItems_step_done f _ rest x hscan
        | cons y tl' =>
          have hT : dumpsListTail (JsonList.cons y tl') ++ ']' :: rest
              = ',' :: (' ' :: (bodyL (JsonList.cons y tl') ++ ']' :: rest)) := by
            simp [dumpsListTail, bodyL]
          rw [hT] at hscan
          refine parseItems_step_comma f _ _ rest x (JsonList.cons y tl') hscan ?_
          have hdw : dropWs (' ' :: (bodyL (JsonList.cons y tl') ++ ']' :: rest))
              = bodyL (JsonList.cons y tl') ++ ']' :: rest := by
            obtain ⟨c, cs, hceq, hok⟩ := dumps_head y
            have hbb : bodyL (JsonList.cons y tl') ++ ']' :: rest
                = c :: (cs ++ (dumpsListTail tl' ++ ']' :: rest)) := by
              simp [bodyL, hceq]
            rw [hbb]
            rw [show dropWs (' ' :: c :: (cs ++ (dumpsListTail tl' ++ ']' :: rest)))
                = dropWs (c :: (cs ++ (dumpsListTail tl' ++ ']' :: rest))) from
              dropWs_cons_ws ' ' _ rfl]
            exact dropWs_cons _ _ (okHead_not_jsonWs c hok)
          rw [hdw]
          have hp := jsize_pos x
          refine ihL (JsonList.cons y tl') rest hwf.2 hstop (by omega) (by simp)
    · intro ms rest hwf hstop hsz hne
      cases ms with
      | nil => exact absurd rfl hne
      | cons k v tl =>
        have hwf' := hwf
        simp only [wfObj, Bool.and_eq_true] at hwf'
        obtain ⟨⟨_, hwv⟩, hwtl⟩ := hwf'
        simp only [jsizeO] at hsz
        have hstopT : stopOk (dumpsObjTail tl ++ '}' :: rest) = true := by
          cases tl <;> rfl
        have hscan0 : scanValue f (dumps v ++ (dumpsObjTail tl ++ '}' :: rest))
            = .ok (v, dumpsObjTail tl ++ '}' :: rest) :=
          ihV v _ hwv hstopT (by omega)
        have hshape : bodyO (.cons k v tl) ++ '}' :: rest
            = '"' :: (escapeString k ++ '"' ::
                (':' :: ' ' :: (dumps v ++ (dumpsObjTail tl ++ '}' :: rest)))) := by
          simp [bodyO]
        rw [hshape]
        have hkey : parseString (escapeString k ++ '"' ::
              (':' :: ' ' :: (dumps v ++ (dumpsObjTail tl ++ '}' :: rest))))
            = .ok (k, ':' :: ' ' :: (dumps v ++ (dumpsObjTail tl ++ '}' :: rest))) :=
          parseString_escape k _
        have hdw : dropWs (dumps v ++ (dumpsObjTail tl ++ '}' :: rest))
            = dumps v ++ (dumpsObjTail tl ++ '}' :: rest) := by
          obtain ⟨c, cs, hceq, hok⟩ := dumps_head v
          rw [show dumps v ++ (dumpsObjTail tl ++ '}' :: rest)
              = c :: (cs ++ (dumpsObjTail tl ++ '}' :: rest)) by simp [hceq]]
          exact dropWs_cons _ _ (okHead_not_jsonWs c hok)
        cases tl with
        | nil =>
          rw [show dumpsObjTail JsonObj.nil ++ '}' :: rest = '}' :: rest from rfl]
            at hscan0 hkey hdw ⊢
          exact parseMembers_step_done f _ _ rest k v hkey (by rw [hdw]; exact hscan0)
        | cons k2 v2 tl' =>
          have hX : dumpsObjTail (JsonObj.cons k2 v2 tl') ++ '}' :: rest
              = ',' :: (' ' :: (bodyO (JsonObj.cons k2 v2 tl') ++ '}' :: rest)) := by
            simp [dumpsObjTail, bodyO]
          rw [hX] at hscan0 hkey hdw ⊢
          refine parseMembers_step_comma f _ _ _ rest k v (JsonObj.cons k2 v2 tl')
            hkey (by rw [hdw]; exact hscan0) ?_
          have hbb : bodyO (JsonObj.cons k2 v2 tl') ++ '}' :: rest
              = '"' :: ((escapeString k2 ++ '"' :: ':' :: ' ' :: dumps v2)
                  ++ (dumpsObjTail tl' ++ '}' :: rest)) := by
            simp [bodyO]
          have hdw2 : dropWs (' ' :: (bodyO (JsonObj.cons k2 v2 tl') ++ '}' :: rest))
              = bodyO (JsonObj.cons k2 v2 tl') ++ '}' :: rest := by
            rw [hbb]
            rw [show dropWs (' ' :: ('"' :: ((escapeString k2 ++ '"' :: ':' :: ' ' :: dumps v2)
                  ++ (dumpsObjTail tl' ++ '}' :: rest))))
                = dropWs ('"' :: ((escapeString k2 ++ '"' :: ':' :: ' ' :: dumps v2)
                  ++ (dumpsObjTail tl' ++ '}' :: rest))) from
              dropWs_cons_ws ' ' _ rfl]
            exact dropWs_cons _ _ rfl
          rw [hdw2]
          have hp := jsize_pos v
          refine ihO (JsonObj.cons k2 v2 tl') rest hwtl hstop (by omega) (by simp)

theorem loads_dumps (v : Json) (hwf : wfJson v = true) :
    loads (dumps v) = .ok v := by
  obtain ⟨c, cs, hceq, hok⟩ := dumps_head v
  rw [loads]
  have hd : dropWs (dumps v) = dumps v := by
    rw [hceq]
    exact dropWs_cons c cs (okHead_not_jsonWs c hok)
  rw [hd]
  have hscan := (parser_roundtrip ((dumps v).length + 1)).1 v [] hwf rfl
    (by have := jsize_le_dumps v; omega)
  rw [List.append_nil] at hscan
  rw [hscan]
  rfl

theorem dumps_last (v : Json) :
    ∃ c cs, (dumps v).reverse = c :: cs ∧ isRegexWs c = false := by
  cases v with
  | null => exact ⟨'l', _, rfl, rfl⟩
  | bool b =>
    cases b
    · exact ⟨'e', _, rfl, rfl⟩
    · exact ⟨'e', _, rfl, rfl⟩
  | num n =>
    have hne := natRepr_ne_nil n.natAbs
    obtain ⟨c, cs, hrev⟩ : ∃ c cs, (natRepr n.natAbs).reverse = c :: cs := by
      cases hr : (natRepr n.natAbs).reverse with
      | nil => exact absurd (List.reverse_eq_nil_iff.mp hr) hne
      | cons c cs => exact ⟨c, cs, rfl⟩
    have hcd : isDigit c = true := by
      have hm : c ∈ (natRepr n.natAbs).reverse := by
        rw [hrev]
        exact List.mem_cons_self c cs
      rw [List.mem_reverse] at hm
      exact natRepr_all_digits _ c hm
    have hnw := okHead_not_regexWs c (okHead_of_digit c hcd)
    by_cases hneg : n < 0
    · refine ⟨c, cs ++ ['-'], ?_, hnw⟩
      simp [dumps, intRepr, if_pos hneg, List.reverse_cons, hrev]
    · refine ⟨c, cs, ?_, hnw⟩
      simp [dumps, intRepr, if_neg hneg, hrev]
  | str s =>
    refine ⟨'"', (escapeString s).reverse ++ ['"'], ?_, rfl⟩
    simp [dumps, List.reverse_cons, List.reverse_append]
  | arr xs =>
    cases xs with
    | nil => exact ⟨']', _, rfl, rfl⟩
    | cons x tl =>
      refine ⟨']', (dumps x ++ dumpsListTail tl).reverse ++ ['['], ?_, rfl⟩
      simp [dumps, List.reverse_cons, List.reverse_append]
  | obj ms =>
    cases ms with
    | nil => exact ⟨'}', _, rfl, rfl⟩
    | cons k v tl =>
      refine ⟨'}', (('"' :: (escapeString k ++ '"' :: ':' :: ' ' :: dumps v)
          ++ dumpsObjTail tl)).reverse ++ ['{'], ?_, rfl⟩
      simp [dumps, List.reverse_cons, List.reverse_append]

theorem hasTriple_cons (c : Char) (l : List Char) (h : hasTriple l = true) :
    hasTriple (c :: l) = true := by
  rw [hasTriple.eq_def]
  split
  · rfl
  · rename_i c2 rest heq
    rw [List.cons.injEq] at heq
    rw [← heq.2]
    exact h
  · rename_i heq
    exact absurd heq (by simp)

theorem hasTriple_append : ∀ (u l : List Char),
    hasTriple l = true → hasTriple (u ++ l) = true
  | [], _, h => h
  | c :: u', l, h => by
    rw [List.cons_append]
    exact hasTriple_cons c (u' ++ l) (hasTriple_append u' l h)

theorem hasTriple_suffix (t s : List Char) (hsuf : t <:+ s)
    (h : hasTriple s = false) : hasTriple t = false := by
  cases hb : hasTriple t with
  | false => rfl
  | true =>
    exfalso
    obtain ⟨u, hu⟩ := hsuf
    rw [← hu, hasTriple_append u t hb] at h
    cases h

theorem dropWhile_suffix (p : Char → Bool) : ∀ l : List Char, l.dropWhile p <:+ l
  | [] => List.suffix_refl []
  | c :: r => by
    rw [List.dropWhile_cons]
    split
    · exact (dropWhile_suffix p r).trans (List.suffix_cons c r)
    · exact List.suffix_refl _

theorem findFence_none : ∀ s : List Char, hasTriple s = false → findFence s = none
  | [], _ => rfl
  | c :: rest, h => by
    rw [findFence.eq_def]
    split
    · rename_i rest2 heq
      rw [heq] at h
      rw [show hasTriple ('`' :: '`' :: '`' :: rest2) = true from rfl] at h
      cases h
    · rename_i c2 rest2 heq
      rw [List.cons.injEq] at heq
      rw [← heq.2]
      have htl : hasTriple rest = false := by
        cases hb : hasTriple rest with
        | false => rfl
        | true =>
          rw [hasTriple_cons c rest hb] at h
          cases h
      exact findFence_none rest htl
    · rename_i heq
      exact absurd heq (by simp)

theorem noPrematureTriple (t : List Char) (ht3 : hasTriple t = false)
    (hne : List.dropWhile isRegexWs t ≠ []) :
    wsThenTriple (t ++ '\n' :: '`' :: '`' :: '`' :: []) = false := by
  rw [wsThenTriple, List.dropWhile_append]
  rw [if_neg (by simpa using hne)]
  obtain ⟨c, r, hcr⟩ : ∃ c r, List.dropWhile isRegexWs t = c :: r := by
    cases hdw : List.dropWhile isRegexWs t with
    | nil => exact absurd hdw hne
    | cons c r => exact ⟨c, r, rfl⟩
  have ht3' : hasTriple (c :: r) = false := by
    rw [← hcr]
    exact hasTriple_suffix _ t (dropWhile_suffix isRegexWs t) ht3
  rw [hcr]
  cases r with
  | nil =>
    rw [startsWith3Backticks.eq_def]
    split
    · rename_i heq
      simp at heq
    · rfl
  | cons d2 r2 =>
    cases r2 with
    | nil =>
      rw [startsWith3Backticks.eq_def]
      split
      · rename_i heq
        simp at heq
      · rfl
    | cons d3 r3 =>
      rw [startsWith3Backticks.eq_def]
      split
      · rename_i heq
        simp only [List.cons_append, List.cons.injEq] at heq
        obtain ⟨hc1, hc2, hc3, _⟩ := heq
        subst hc1
        subst hc2
        subst hc3
        rw [show hasTriple ('`' :: '`' :: '`' :: r3) = true from rfl] at ht3'
        cases ht3'
      · rfl

theorem dumps_tail_not_all_ws (v : Json) (t : List Char) (htne : t ≠ [])
    (hsuf : t <:+ dumps v) : List.dropWhile isRegexWs t ≠ [] := by
  obtain ⟨d, ds, hrev, hd⟩ := dumps_last v
  obtain ⟨e, es, hte⟩ : ∃ e es, t.reverse = e :: es := by
    cases ht : t.reverse with
    | nil => exact absurd (List.reverse_eq_nil_iff.mp ht) htne
    | cons e es => exact ⟨e, es, rfl⟩
  have hpre : t.reverse <+: (dumps v).reverse := List.reverse_prefix.mpr hsuf
  rw [hte, hrev] at hpre
  obtain ⟨u, hu⟩ := hpre
  rw [List.cons_append, List.cons.injEq] at hu
  have hdm : d ∈ t := by
    rw [← List.mem_reverse, hte, ← hu.1]
    exact List.mem_cons_self e es
  intro hcon
  rw [List.dropWhile_eq_nil_iff] at hcon
  have hx := hcon d hdm
  rw [hd] at hx
  cases hx

theorem lazyScan_to_end (tail : List Char) (htail : wsThenTriple tail = true) :
    ∀ (suf acc : List Char),
    (∀ t, t ≠ [] → t <:+ suf → wsThenTriple (t ++ tail) = false) →
    lazyScan acc (suf ++ tail) = some (acc.reverse ++ suf)
  | [], acc, _ => by
    cases tail with
    | nil => exact absurd htail (by decide)
    | cons c r =>
      rw [List.nil_append, lazyScan, if_pos htail]
      simp
  | c :: suf', acc, hpre => by
    rw [List.cons_append, lazyScan]
    have hw : wsThenTriple (c :: (suf' ++ tail)) = false := by
      have := hpre (c :: suf') (by simp) (List.suffix_refl _)
      rw [List.cons_append] at this
      exact this
    rw [if_neg (by simp [hw])]
    rw [lazyScan_to_end tail htail suf' (c :: acc)
      (fun t ht hsuf => hpre t ht (hsuf.trans (List.suffix_cons c suf')))]
    simp

theorem pyStrip_dumps (v : Json) : pyStrip (dumps v) = dumps v := by
  obtain ⟨c, cs, hceq, hok⟩ := dumps_head v
  obtain ⟨d, ds, hrev, hd⟩ := dumps_last v
  have h1 : (dumps v).dropWhile isRegexWs = dumps v := by
    rw [hceq]
    simp [List.dropWhile_cons, okHead_not_regexWs c hok]
  have h2 : (dumps v).reverse.dropWhile isRegexWs = (dumps v).reverse := by
    rw [hrev]
    simp [List.dropWhile_cons, hd]
  rw [pyStrip, h1, h2, List.reverse_reverse]

theorem extractCandidate_dumps (v : Json) (hnt : hasTriple (dumps v) = false) :
    extractCandidate (dumps v) = dumps v := by
  rw [extractCandidate, findFence_none (dumps v) hnt, pyStrip_dumps]

theorem extractCandidate_fenced (v : Json) (hnt : hasTriple (dumps v) = false) :
    extractCandidate (lchars "```json\n" ++ dumps v ++ lchars "\n```")
      = dumps v := by
  obtain ⟨c, cs, hceq, hok⟩ := dumps_head v
  have htail : wsThenTriple ('\n' :: '`' :: '`' :: '`' :: []) = true := by decide
  have hlz : lazyScan [] (dumps v ++ '\n' :: '`' :: '`' :: '`' :: [])
      = some (dumps v) := by
    rw [lazyScan_to_end ('\n' :: '`' :: '`' :: '`' :: []) htail (dumps v) []
      (fun t ht hsuf => noPrematureTriple t (hasTriple_suffix t _ hsuf hnt)
        (dumps_tail_not_all_ws v t ht hsuf))]
    simp
  have hshape : lchars "```json\n" ++ dumps v ++ lchars "\n```"
      = '`' :: '`' :: '`' :: 'j' :: 's' :: 'o' :: 'n' :: '\n'
          :: (dumps v ++ '\n' :: '`' :: '`' :: '`' :: []) := by
    rw [show lchars "```json\n" = ['`', '`', '`', 'j', 's', 'o', 'n', '\n'] from rfl,
      show lchars "\n```" = ['\n', '`', '`', '`'] from rfl]
    simp
  have hdw : List.dropWhile isRegexWs
        ('\n' :: (dumps v ++ '\n' :: '`' :: '`' :: '`' :: []))
      = dumps v ++ '\n' :: '`' :: '`' :: '`' :: [] := by
    rw [show List.dropWhile isRegexWs
          ('\n' :: (dumps v ++ '\n' :: '`' :: '`' :: '`' :: []))
        = List.dropWhile isRegexWs (dumps v ++ '\n' :: '`' :: '`' :: '`' :: []) from by
      simp [List.dropWhile_cons, show isRegexWs '\n' = true from rfl]]
    rw [hceq]
    simp [List.dropWhile_cons, okHead_not_regexWs c hok]
  have hws : wsThenTriple ('\n' :: (dumps v ++ '\n' :: '`' :: '`' :: '`' :: []))
      = false := by
    rw [wsThenTriple, hdw, hceq]
    rw [startsWith3Backticks.eq_def]
    split
    · rename_i heq
      rw [List.cons_append, List.cons.injEq] at heq
      exact absurd heq.1 (okHead_ne_backtick c hok)
    · rfl
  have hff : findFence ('`' :: '`' :: '`' :: 'j' :: 's' :: 'o' :: 'n' :: '\n'
      :: (dumps v ++ '\n' :: '`' :: '`' :: '`' :: [])) = some (dumps v) := by
    rw [findFence]
    rw [show completeFence ('j' :: 's' :: 'o' :: 'n' :: '\n'
          :: (dumps v ++ '\n' :: '`' :: '`' :: '`' :: []))
        = (if wsThenTriple ('\n' :: (dumps v ++ '\n' :: '`' :: '`' :: '`' :: []))
            then some []
           else lazyScan [] (List.dropWhile isRegexWs
              ('\n' :: (dumps v ++ '\n' :: '`' :: '`' :: '`' :: [])))) from rfl]
    rw [if_neg (by simp [hws]), hdw, hlz]
  rw [extractCandidate, hshape, hff]
  exact pyStrip_dumps v

theorem objGet_none : ∀ (tl : JsonObj) (k : List Char),
    objHasKey tl k = false → objGet tl k = none
  | .nil, _, _ => rfl
  | .cons k1 v1 tl, k, h => by
    simp only [objHasKey, Bool.or_eq_false_iff, decide_eq_false_iff_not] at h
    simp only [objGet, if_neg h.1]
    exact objGet_none tl k h.2

theorem objGet_objInsert_self : ∀ (d : JsonObj) (k : List Char) (v : Json),
    objGet (objInsert d k v) k = some v
  | .nil, k, v => by simp [objInsert, objGet]
  | .cons k1 v1 tl, k, v => by
    by_cases h : k1 = k
    · simp [objInsert, if_pos h, objGet, h]
    · simp only [objInsert, if_neg h, objGet, if_neg h]
      exact objGet_objInsert_self tl k v

theorem objGet_objInsert_other : ∀ (d : JsonObj) (k : List Char) (v : Json)
    (k' : List Char), k ≠ k' → objGet (objInsert d k v) k' = objGet d k'
  | .nil, k, v, k', hne => by simp [objInsert, objGet, if_neg hne]
  | .cons k1 v1 tl, k, v, k', hne => by
    by_cases h : k1 = k
    · simp [objInsert, if_pos h, objGet, h, if_neg hne]
    · simp only [objInsert, if_neg h, objGet]
      by_cases h' : k1 = k'
      · simp [if_pos h']
      · simp only [if_neg h']
        exact objGet_objInsert_other tl k v k' hne

theorem objGet_merge : ∀ (o d : JsonObj) (k : List Char), wfObj o = true →
    objGet (objFromPairsAux d o) k
      = (match objGet o k with
         | some x => some x
         | none => objGet d k)
  | .nil, d, k, _ => by simp [objFromPairsAux, objGet]
  | .cons k1 v1 tl, d, k, hwf => by
    simp only [wfObj, Bool.and_eq_true, Bool.not_eq_true'] at hwf
    obtain ⟨⟨hk1, _⟩, hwtl⟩ := hwf
    rw [objFromPairsAux, objGet_merge tl (objInsert d k1 v1) k hwtl]
    by_cases h : k1 = k
    · subst h
      rw [objGet_none tl k1 hk1, objGet_objInsert_self d k1 v1]
      simp [objGet]
    · simp only [objGet, if_neg h]
      cases hg : objGet tl k with
      | some x => rfl
      | none => exact objGet_objInsert_other d k1 v1 k h

/-! JSONParser.parse_questions and _calculate_section_marks, with
Python's duck typing: `in`, subscripting by a string key, item
assignment and integer `+=` each succeed or raise TypeError depending
on the runtime type of the operand, exactly as in CPython. -/

/-- A Python exception escaping parse_questions. -/
inductive PyExc where
  | typeError (msg : String)
  | keyError (msg : String)
deriving DecidableEq, Repr

/-- Python substring test (needle in haystack). -/
def strContains (needle : List Char) : List Char → Bool
  | [] => List.isPrefixOf needle []
  | c :: rest => List.isPrefixOf needle (c :: rest) || strContains needle rest

/-- Python `key in v` for a string key: dict key lookup, substring test
on strings, membership on lists, TypeError otherwise. -/
def pyContains (key : List Char) : Json → Except PyExc Bool
  | .obj o => .ok (objHasKey o key)
  | .str s => .ok (strContains key s)
  | .arr xs => .ok (listHasStr xs key)
  | v => .error (.typeError
      ("argument of type '" ++ pyTypeName v ++ "' is not iterable"))
where listHasStr : JsonList → List Char → Bool
  | .nil, _ => false
  | .cons x tl, k => (x == Json.str k) || listHasStr tl k

/-- Python `v[key]` for a string key. -/
def pySubscriptStr (v : Json) (key : List Char) : Except PyExc Json :=
  match v with
  | .obj o =>
    match objGet o key with
    | some x => .ok x
    | none => .error (.keyError (String.mk key))
  | .str _ => .error (.typeError "string indices must be integers, not 'str'")
  | .arr _ => .error (.typeError "list indices must be integers or slices, not str")
  | _ => .error (.typeError
      ("'" ++ pyTypeName v ++ "' object is not subscriptable"))

/-- Python `v[key] = x` for a string key. -/
def pySetItemStr (v : Json) (key : List Char) (x : Json) : Except PyExc Json :=
  match v with
  | .obj o => .ok (.obj (objInsert o key x))
  | .str _ => .error (.typeError "'str' object does not support item assignment")
  | .arr _ => .error (.typeError "list indices must be integers or slices, not str")
  | _ => .error (.typeError
      ("'" ++ pyTypeName v ++ "' object does not support item assignment"))

/-- Python `total += v` with an int total: ints add, bools add as 0 or
1, anything else raises TypeError. -/
def pyAddInt (total : ℤ) : Json → Except PyExc ℤ
  | .num n => .ok (total + n)
  | .bool b => .ok (total + (if b then 1 else 0))
  | v => .error (.typeError
      ("unsupported operand type(s) for +=: 'int' and '" ++ pyTypeName v ++ "'"))

/-- Python `for x in v`: list elements, the characters of a string as
one-character strings, the keys of a dict, TypeError otherwise. -/
def pyIterate : Json → Except PyExc (List Json)
  | .arr xs => .ok (jsonListToList xs)
  | .str s => .ok (s.map (fun c => Json.str [c]))
  | .obj o => .ok (objKeysAsStr o)
  | v => .error (.typeError ("'" ++ pyTypeName v ++ "' object is not iterable"))
where
  jsonListToList : JsonList → List Json
    | .nil => []
    | .cons x tl => x :: jsonListToList tl
  objKeysAsStr : JsonObj → List Json
    | .nil => []
    | .cons k _ tl => .str k :: objKeysAsStr tl

/-- List of values back into a JSON array. -/
def listToJsonList : List Json → JsonList
  | [] => .nil
  | x :: tl => .cons x (listToJsonList tl)

/-- The inner sub-question loop of _calculate_section_marks. -/
def foldSubs : JsonList → ℤ → Except PyExc ℤ
  | .nil, t => .ok t
  | .cons sq tl, t => do
    let hm ← pyContains (lchars "marks") sq
    let t2 ←
      if hm then do
        let m ← pySubscriptStr sq (lchars "marks")
        pyAddInt t m
      else pure t
    foldSubs tl t2

/-- The body of the question loop of _calculate_section_marks. -/
def addMarksOf (q : Json) (t : ℤ) : Except PyExc ℤ := do
  let hm ← pyContains (lchars "marks") q
  let t2 ←
    if hm then do
      let m ← pySubscriptStr q (lchars "marks")
      pyAddInt t m
    else pure t
  let hs ← pyContains (lchars "subQuestions") q
  if hs then do
    let sqs ← pySubscriptStr q (lchars "subQuestions")
    match sqs with
    | .arr sqlist => foldSubs sqlist t2
    | _ => pure t2
  else pure t2

/-- The question loop of _calculate_section_marks. -/
def foldQuestions : JsonList → ℤ → Except PyExc ℤ
  | .nil, t => .ok t
  | .cons q tl, t => do
    let t2 ← addMarksOf q t
    foldQuestions tl t2

/-- JSONParser._calculate_section_marks. -/
def calculate_section_marks (sec : Json) : Except PyExc ℤ := do
  let hq ← pyContains (lchars "questions") sec
  if hq then do
    let qs ← pySubscriptStr sec (lchars "questions")
    match qs with
    | .arr qlist => foldQuestions qlist 0
    | _ => pure 0
  else pure 0

/-- The section loop of parse_questions: compute each section's total
and assign its totalMarks field. -/
def processSections : List Json → Except PyExc (List Json)
  | [] => .ok []
  | s :: tl => do
    let t ← calculate_section_marks s
    let s2 ← pySetItemStr s (lchars "totalMarks") (.num t)
    let tl2 ← processSections tl
    pure (s2 :: tl2)

/-- JSONParser.parse_questions with parse=True.  The request_metadata
default is the (shared, mutable) empty dict literal of the signature.
The result none means the extraction exercised an out-of-model feature;
.error means an exception escapes to the caller, .ok the returned
triple. -/
def parse_questions (raw : List Char) (request_metadata : JsonObj := .nil) :
    Option (Except PyExc (Bool × Json × Option String)) :=
  match extract_json_from_response raw (some request_metadata) true with
  | none => none
  | some (success, parsed, error) =>
    if success then
      match parsed with
      | .obj o =>
        if objHasKey o (lchars "sections") then
          match objGet o (lchars "sections") with
          | some secs =>
            match pyIterate secs with
            | .error e => some (.error e)
            | .ok lst =>
              match processSections lst with
              | .error e => some (.error e)
              | .ok lst2 =>
                match secs with
                | .arr _ => some (.ok (success,
                    .obj (objInsert o (lchars "sections")
                      (.arr (listToJsonList lst2))), error))
                | _ => some (.ok (success, parsed, error))
          | none => some (.ok (success, parsed, error))
        else some (.ok (success, parsed, error))
      | _ => some (.ok (success, parsed, error))
    else some (.ok (success, parsed, error))

/-! Specification-side description of the recomputed section totals (the
wording of the claim): the total of a section is the sum of its
questions' numeric marks fields plus the numeric marks fields of the
entries of each question's subQuestions list, and each section's
totalMarks field is set to this total, overwriting any present value. -/

/-- Marks field of a dict, when numeric. -/
def marksOf (o : JsonObj) : ℤ :=
  match objGet o (lchars "marks") with
  | some (.num n) => n
  | _ => 0

/-- Sum of the marks fields over a subQuestions list. -/
def specSubSum : JsonList → ℤ
  | .nil => 0
  | .cons (.obj so) tl => marksOf so + specSubSum tl
  | .cons _ tl => specSubSum tl

/-- Sum over a questions list of marks plus sub-question marks. -/
def specQSum : JsonList → ℤ
  | .nil => 0
  | .cons (.obj qo) tl =>
    marksOf qo
    + (match objGet qo (lchars "subQuestions") with
       | some (.arr sqs) => specSubSum sqs
       | _ => 0)
    + specQSum tl
  | .cons _ tl => specQSum tl

/-- The claimed totalMarks value of a section. -/
def specSectionTotal (s : Json) : ℤ :=
  match s with
  | .obj so =>
    match objGet so (lchars "questions") with
    | some (.arr qs) => specQSum qs
    | _ => 0
  | _ => 0

/-- The claimed rewrite of the sections array: every section dict gets
totalMarks set (overwritten) to its recomputed total. -/
def specUpdateSections : JsonList → JsonList
  | .nil => .nil
  | .cons s tl =>
    .cons (match s with
           | .obj so => .obj (objInsert so (lchars "totalMarks")
               (.num (specSectionTotal s)))
           | other => other) (specUpdateSections tl)

/-- Well-shapedness of a sub-question entry: a dict whose marks field,
if present, is a number. -/
def goodSub (sq : Json) : Bool :=
  match sq with
  | .obj so =>
    match objGet so (lchars "marks") with
    | some (.num _) => true
    | some _ => false
    | none => true
  | _ => false

/-- Well-shapedness of subQuestions entries. -/
def goodSubs : JsonList → Bool
  | .nil => true
  | .cons sq tl => goodSub sq && goodSubs tl

/-- Well-shapedness of a question: a dict with numeric-or-absent marks
whose subQuestions, when a list, has well-shaped entries. -/
def goodQ (q : Json) : Bool :=
  match q with
  | .obj qo =>
    (match objGet qo (lchars "marks") with
     | some (.num _) => true
     | some _ => false
     | none => true)
    && (match objGet qo (lchars "subQuestions") with
        | some (.arr sqs) => goodSubs sqs
        | some _ => true
        | none => true)
  | _ => false

/-- Well-shapedness of a questions list. -/
def goodQs : JsonList → Bool
  | .nil => true
  | .cons q tl => goodQ q && goodQs tl

/-- Well-shapedness of a section: a dict whose questions, when a list,
has well-shaped entries. -/
def goodSection (s : Json) : Bool :=
  match s with
  | .obj so =>
    match objGet so (lchars "questions") with
    | some (.arr qs) => goodQs qs
    | some _ => true
    | none => true
  | _ => false

/-- Well-shapedness of the sections array. -/
def goodSections : JsonList → Bool
  | .nil => true
  | .cons s tl => goodSection s && goodSections tl

theorem objHasKey_eq_isSome : ∀ (o : JsonObj) (k : List Char),
    objHasKey o k = (objGet o k).isSome
  | .nil, _ => rfl
  | .cons k1 v1 tl, k => by
    by_cases h : k1 = k
    · simp [objHasKey, objGet, if_pos h, h]
    · simp only [objHasKey, objGet, if_neg h]
      rw [objHasKey_eq_isSome tl k]
      simp [h]

theorem exc_bind_ok {α β : Type} (a : α) (f : α → Except PyExc β) :
    (Except.ok a >>= f : Except PyExc β) = f a := rfl

theorem exc_pure {α : Type} (a : α) :
    (pure a : Except PyExc α) = Except.ok a := rfl

theorem foldSubs_good : ∀ (sqs : JsonList) (t : ℤ), goodSubs sqs = true →
    foldSubs sqs t = .ok (t + specSubSum sqs)
  | .nil, t, _ => by simp [foldSubs, specSubSum]
  | .cons sq tl, t, h => by
    simp only [goodSubs, Bool.and_eq_true] at h
    obtain ⟨h1, h2⟩ := h
    cases sq with
    | obj so =>
      simp only [goodSub] at h1
      cases hg : objGet so (lchars "marks") with
      | none =>
        have hk : objHasKey so (lchars "marks") = false := by
          rw [objHasKey_eq_isSome, hg]
          rfl
        rw [foldSubs,
          show pyContains (lchars "marks") (Json.obj so)
            = .ok (objHasKey so (lchars "marks")) from rfl, hk]
        simp only [exc_bind_ok, exc_pure, Bool.false_eq_true, if_false]
        rw [foldSubs_good tl t h2]
        simp only [specSubSum, marksOf, hg, Except.ok.injEq]
        omega
      | some m =>
        have hk : objHasKey so (lchars "marks") = true := by
          rw [objHasKey_eq_isSome, hg]
          rfl
        rw [hg] at h1
        cases m with
        | num n =>
          rw [foldSubs,
            show pyContains (lchars "marks") (Json.obj so)
              = .ok (objHasKey so (lchars "marks")) from rfl, hk,
            show pySubscriptStr (Json.obj so) (lchars "marks")
              = .ok (Json.num n) from by simp [pySubscriptStr, hg]]
          simp only [exc_bind_ok, exc_pure, if_pos rfl, if_true,
            show pyAddInt t (Json.num n) = .ok (t + n) from rfl]
          rw [foldSubs_good tl (t + n) h2]
          simp only [specSubSum, marksOf, hg, Except.ok.injEq]
          omega
        | null => cases h1
        | bool b => cases h1
        | str s => cases h1
        | arr xs => cases h1
        | obj oo => cases h1
    | null => cases h1
    | bool b => cases h1
    | num n => cases h1
    | str s => cases h1
    | arr xs => cases h1

theorem addMarksOf_good (qo : JsonObj) (t : ℤ)
    (h1 : (match objGet qo (lchars "marks") with
           | some (.num _) => true
           | some _ => false
           | none => true) = true)
    (h2 : (match objGet qo (lchars "subQuestions") with
           | some (.arr sqs) => goodSubs sqs
           | some _ => true
           | none => true) = true) :
    addMarksOf (Json.obj qo) t
      = .ok (t + marksOf qo
          + (match objGet qo (lchars "subQuestions") with
             | some (.arr sqs) => specSubSum sqs
             | _ => 0)) := by
  cases hg : objGet qo (lchars "marks") with
  | none =>
    have hk : objHasKey qo (lchars "marks") = false := by
      rw [objHasKey_eq_isSome, hg]
      rfl
    rw [addMarksOf,
      show pyContains (lchars "marks") (Json.obj qo)
        = .ok (objHasKey qo (lchars "marks")) from rfl, hk,
      show pyContains (lchars "subQuestions") (Json.obj qo)
        = .ok (objHasKey qo (lchars "subQuestions")) from rfl]
    simp only [exc_bind_ok, exc_pure, Bool.false_eq_true, if_false]
    cases hg2 : objGet qo (lchars "subQuestions") with
    | none =>
      have hk2 : objHasKey qo (lchars "subQuestions") = false := by
        rw [objHasKey_eq_isSome, hg2]
        rfl
      rw [hk2]
      simp only [exc_bind_ok, exc_pure, Bool.false_eq_true, if_false]
      simp only [marksOf, hg, hg2, Except.ok.injEq]
      omega
    | some sv =>
      have hk2 : objHasKey qo (lchars "subQuestions") = true := by
        rw [objHasKey_eq_isSome, hg2]
        rfl
      rw [hg2] at h2
      rw [hk2,
        show pySubscriptStr (Json.obj qo) (lchars "subQuestions")
          = .ok sv from by simp [pySubscriptStr, hg2]]
      simp only [exc_bind_ok, exc_pure, if_pos rfl]
      cases sv with
      | arr sqs =>
        simp only [if_true]
        show foldSubs sqs t = Except.ok (t + marksOf qo + specSubSum sqs)
        rw [foldSubs_good sqs t h2]
        simp only [marksOf, hg, Except.ok.injEq]
        omega
      | null => simp [marksOf, hg, hg2]
      | bool b => simp [marksOf, hg, hg2]
      | num n => simp [marksOf, hg, hg2]
      | str s => simp [marksOf, hg, hg2]
      | obj oo => simp [marksOf, hg, hg2]
  | some m =>
    have hk : objHasKey qo (lchars "marks") = true := by
      rw [objHasKey_eq_isSome, hg]
      rfl
    rw [hg] at h1
    cases m with
    | num n =>
      rw [addMarksOf,
        show pyContains (lchars "marks") (Json.obj qo)
          = .ok (objHasKey qo (lchars "marks")) from rfl, hk,
        show pySubscriptStr (Json.obj qo) (lchars "marks")
          = .ok (Json.num n) from by simp [pySubscriptStr, hg],
        show pyContains (lchars "subQuestions") (Json.obj qo)
          = .ok (objHasKey qo (lchars "subQuestions")) from rfl]
      simp only [exc_bind_ok, exc_pure, if_pos rfl, if_true,
        show pyAddInt t (Json.num n) = .ok (t + n) from rfl]
      cases hg2 : objGet qo (lchars "subQuestions") with
      | none =>
        have hk2 : objHasKey qo (lchars "subQuestions") = false := by
          rw [objHasKey_eq_isSome, hg2]
          rfl
        rw [hk2]
        simp only [exc_bind_ok, exc_pure, Bool.false_eq_true, if_false]
        simp only [marksOf, hg, hg2, Except.ok.injEq]
        omega
      | some sv =>
        have hk2 : objHasKey qo (lchars "subQuestions") = true := by
          rw [objHasKey_eq_isSome, hg2]
          rfl
        rw [hg2] at h2
        rw [hk2,
          show pySubscriptStr (Json.obj qo) (lchars "subQuestions")
            = .ok sv from by simp [pySubscriptStr, hg2]]
        simp only [exc_bind_ok, exc_pure, if_pos rfl, if_true]
        cases sv with
        | arr sqs =>
          show foldSubs sqs (t + n) = Except.ok (t + marksOf qo + specSubSum sqs)
          rw [foldSubs_good sqs (t + n) h2]
          simp only [marksOf, hg, Except.ok.injEq]
        | null => simp [marksOf, hg, hg2]
        | bool b => simp [marksOf, hg, hg2]
        | num n2 => simp [marksOf, hg, hg2]
        | str s => simp [marksOf, hg, hg2]
        | obj oo => simp [marksOf, hg, hg2]
    | null => cases h1
    | bool b => cases h1
    | str s => cases h1
    | arr xs => cases h1
    | obj oo => cases h1

theorem foldQuestions_good : ∀ (qs : JsonList) (t : ℤ), goodQs qs = true →
    foldQuestions qs t = .ok (t + specQSum qs)
  | .nil, t, _ => by simp [foldQuestions, specQSum]
  | .cons q tl, t, h => by
    simp only [goodQs, Bool.and_eq_true] at h
    obtain ⟨h1, h2⟩ := h
    cases q with
    | obj qo =>
      simp only [goodQ, Bool.and_eq_true] at h1
      rw [foldQuestions, addMarksOf_good qo t h1.1 h1.2]
      simp only [exc_bind_ok]
      rw [foldQuestions_good tl _ h2]
      simp only [specQSum, Except.ok.injEq]
      omega
    | null => cases h1
    | bool b => cases h1
    | num n => cases h1
    | str s => cases h1
    | arr xs => cases h1

theorem calculate_section_marks_good (s : Json) (h : goodSection s = true) :
    calculate_section_marks s = .ok (specSectionTotal s) := by
  cases s with
  | obj so =>
    simp only [goodSection] at h
    cases hg : objGet so (lchars "questions") with
    | none =>
      have hk : objHasKey so (lchars "questions") = false := by
        rw [objHasKey_eq_isSome, hg]
        rfl
      rw [calculate_section_marks,
        show pyContains (lchars "questions") (Json.obj so)
          = .ok (objHasKey so (lchars "questions")) from rfl, hk]
      simp only [exc_bind_ok, exc_pure, Bool.false_eq_true, if_false]
      simp [specSectionTotal, hg]
    | some qv =>
      have hk : objHasKey so (lchars "questions") = true := by
        rw [objHasKey_eq_isSome, hg]
        rfl
      rw [hg] at h
      rw [calculate_section_marks,
        show pyContains (lchars "questions") (Json.obj so)
          = .ok (objHasKey so (lchars "questions")) from rfl, hk,
        show pySubscriptStr (Json.obj so) (lchars "questions")
          = .ok qv from by simp [pySubscriptStr, hg]]
      simp only [exc_bind_ok, exc_pure, if_pos rfl, if_true]
      cases qv with
      | arr qs =>
        show foldQuestions qs 0 = Except.ok (specSectionTotal (Json.obj so))
        rw [foldQuestions_good qs 0 h]
        simp [specSectionTotal, hg]
      | null => simp [specSectionTotal, hg]
      | bool b => simp [specSectionTotal, hg]
      | num n => simp [specSectionTotal, hg]
      | str s2 => simp [specSectionTotal, hg]
      | obj oo => simp [specSectionTotal, hg]
  | null => cases h
  | bool b => cases h
  | num n => cases h
  | str s2 => cases h
  | arr xs => cases h

theorem processSections_good : ∀ xs : JsonList, goodSections xs = true →
    processSections (pyIterate.jsonListToList xs)
      = .ok (pyIterate.jsonListToList (specUpdateSections xs))
  | .nil, _ => rfl
  | .cons s tl, h => by
    simp only [goodSections, Bool.and_eq_true] at h
    obtain ⟨h1, h2⟩ := h
    rw [show pyIterate.jsonListToList (JsonList.cons s tl)
        = s :: pyIterate.jsonListToList tl from rfl]
    rw [processSections, calculate_section_marks_good s h1]
    cases s with
    | obj so =>
      simp only [exc_bind_ok]
      rw [show pySetItemStr (Json.obj so) (lchars "totalMarks")
            (.num (specSectionTotal (Json.obj so)))
          = .ok (.obj (objInsert so (lchars "totalMarks")
              (.num (specSectionTotal (Json.obj so))))) from rfl]
      simp only [exc_bind_ok]
      rw [processSections_good tl h2]
      simp only [exc_bind_ok, exc_pure]
      rfl
    | null => cases h1
    | bool b => cases h1
    | num n => cases h1
    | str s2 => cases h1
    | arr xs2 => cases h1

theorem listToJsonList_toList : ∀ xs : JsonList,
    listToJsonList (pyIterate.jsonListToList xs) = xs
  | .nil => rfl
  | .cons x tl => by
    rw [show pyIterate.jsonListToList (JsonList.cons x tl)
        = x :: pyIterate.jsonListToList tl from rfl]
    rw [listToJsonList, listToJsonList_toList tl]

/-- C3: when the extraction succeeds with an object whose sections field
is a well-shaped array (every section a dict whose questions, when a
list, are dicts with numeric-or-absent marks and well-shaped
subQuestions), parse_questions returns success with each section's
totalMarks set — overwriting any present value — to the sum of its
questions' marks plus the marks of their subQuestions entries, as
described by specUpdateSections/specSectionTotal. -/
theorem C3_section_totalMarks (raw : List Char) (md : JsonObj) (o : JsonObj)
    (xs : JsonList)
    (hx : extract_json_from_response raw (some md) true = some (true, .obj o, none))
    (hsec : objGet o (lchars "sections") = some (.arr xs))
    (hgood : goodSections xs = true) :
    parse_questions raw md
      = some (.ok (true, .obj (objInsert o (lchars "sections")
          (.arr (specUpdateSections xs))), none)) := by
  have hk : objHasKey o (lchars "sections") = true := by
    rw [objHasKey_eq_isSome, hsec]
    rfl
  have hred : parse_questions raw md
      = (if objHasKey o (lchars "sections") then
          match objGet o (lchars "sections") with
          | some secs =>
            match pyIterate secs with
            | .error e => some (.error e)
            | .ok lst =>
              match processSections lst with
              | .error e => some (.error e)
              | .ok lst2 =>
                match secs with
                | .arr _ => some (.ok (true,
                    Json.obj (objInsert o (lchars "sections")
                      (.arr (listToJsonList lst2))), none))
                | _ => some (.ok (true, Json.obj o, none))
          | none => some (.ok (true, Json.obj o, none))
        else some (.ok (true, Json.obj o, none))) := by
    rw [parse_questions, hx]
    rfl
  rw [hred, if_pos hk, hsec]
  show ((match processSections (pyIterate.jsonListToList xs) with
    | .error e => some (.error e)
    | .ok lst2 => some (.ok (true,
        Json.obj (objInsert o (lchars "sections")
          (.arr (listToJsonList lst2))), none)))
    : Option (Except PyExc (Bool × Json × Option String)))
    = some (.ok (true, Json.obj (objInsert o (lchars "sections")
        (.arr (specUpdateSections xs))), none))
  rw [processSections_good xs hgood]
  show (some (.ok (true, Json.obj (objInsert o (lchars "sections")
      (.arr (listToJsonList (pyIterate.jsonListToList (specUpdateSections xs))))),
      none))
    : Option (Except PyExc (Bool × Json × Option String)))
    = some (.ok (true, Json.obj (objInsert o (lchars "sections")
        (.arr (specUpdateSections xs))), none))
  rw [listToJsonList_toList]

/-- Counterexample to the unconditional C3: a parsed object with a
sections array whose question has a null marks value makes the += in
_calculate_section_marks raise TypeError, so no totalMarks is set and
no triple is returned. -/
theorem C3_nonnumeric_counterexample :
    parse_questions "\x7b\x22sections\x22:[\x7b\x22questions\x22:[\x7b\x22marks\x22:null\x7d]\x7d]\x7d".data
      = some (.error (.typeError
          "unsupported operand type(s) for +=: 'int' and 'NoneType'")) := by
  decide

/-- Witness for C3_section_totalMarks at the specification's example: a
section with questions of marks 2 and 3 and a stale totalMarks of 99
gets totalMarks 5. -/
theorem C3_section_totalMarks_witness :
    (extract_json_from_response
        "\x7b\x22sections\x22:[\x7b\x22totalMarks\x22:99,\x22questions\x22:[\x7b\x22marks\x22:2\x7d,\x7b\x22marks\x22:3\x7d]\x7d]\x7d".data
        (some .nil) true
      = some (true, .obj (.cons "sections".data
          (.arr (.cons (.obj (.cons "totalMarks".data (.num 99)
            (.cons "questions".data
              (.arr (.cons (.obj (.cons "marks".data (.num 2) .nil))
                (.cons (.obj (.cons "marks".data (.num 3) .nil)) .nil))) .nil)))
            .nil)) .nil), none)
     ∧ objGet (JsonObj.cons "sections".data
          (.arr (.cons (.obj (.cons "totalMarks".data (.num 99)
            (.cons "questions".data
              (.arr (.cons (.obj (.cons "marks".data (.num 2) .nil))
                (.cons (.obj (.cons "marks".data (.num 3) .nil)) .nil))) .nil)))
            .nil)) .nil) (lchars "sections")
        = some (.arr (.cons (.obj (.cons "totalMarks".data (.num 99)
            (.cons "questions".data
              (.arr (.cons (.obj (.cons "marks".data (.num 2) .nil))
                (.cons (.obj (.cons "marks".data (.num 3) .nil)) .nil))) .nil)))
            .nil))
     ∧ goodSections (.cons (.obj (.cons "totalMarks".data (.num 99)
            (.cons "questions".data
              (.arr (.cons (.obj (.cons "marks".data (.num 2) .nil))
                (.cons (.obj (.cons "marks".data (.num 3) .nil)) .nil))) .nil)))
            .nil) = true)
    ∧ parse_questions
        "\x7b\x22sections\x22:[\x7b\x22totalMarks\x22:99,\x22questions\x22:[\x7b\x22marks\x22:2\x7d,\x7b\x22marks\x22:3\x7d]\x7d]\x7d".data
        .nil
      = some (.ok (true, .obj (objInsert (JsonObj.cons "sections".data
          (.arr (.cons (.obj (.cons "totalMarks".data (.num 99)
            (.cons "questions".data
              (.arr (.cons (.obj (.cons "marks".data (.num 2) .nil))
                (.cons (.obj (.cons "marks".data (.num 3) .nil)) .nil))) .nil)))
            .nil)) .nil) (lchars "sections")
          (.arr (specUpdateSections (.cons (.obj (.cons "totalMarks".data (.num 99)
            (.cons "questions".data
              (.arr (.cons (.obj (.cons "marks".data (.num 2) .nil))
                (.cons (.obj (.cons "marks".data (.num 3) .nil)) .nil))) .nil)))
            .nil)))), none))
    ∧ specUpdateSections (.cons (.obj (.cons "totalMarks".data (.num 99)
          (.cons "questions".data
            (.arr (.cons (.obj (.cons "marks".data (.num 2) .nil))
              (.cons (.obj (.cons "marks".data (.num 3) .nil)) .nil))) .nil)))
          .nil)
      = .cons (.obj (.cons "totalMarks".data (.num 5)
          (.cons "questions".data
            (.arr (.cons (.obj (.cons "marks".data (.num 2) .nil))
              (.cons (.obj (.cons "marks".data (.num 3) .nil)) .nil))) .nil)))
          .nil :=
  ⟨⟨by decide, by decide, by decide⟩,
   C3_section_totalMarks _ _ _ _ (by decide) (by decide) (by decide),
   by decide⟩

/-- C10: parse_questions on a string that parses to an object with a
sections array in which a question's marks value is a JSON string
raises an uncaught TypeError from the post-processing (which runs
outside extract_json_from_response's try/except), instead of returning
a (success, value, error) triple. -/
theorem C10_uncaught_typeerror :
    parse_questions "\x7b\x22sections\x22:[\x7b\x22questions\x22:[\x7b\x22marks\x22:\x22two\x22\x7d]\x7d]\x7d".data
      = some (.error (.typeError
          "unsupported operand type(s) for +=: 'int' and 'str'")) := by
  decide


/-! OpenAIService._generate_deterministic_kp_id (src/services/openai_service.py).
The function concatenates the lowercased board, the grade, an underscore and
the lowercased subject with spaces replaced by underscores; it MD5-hashes the
lowercased chapter with spaces replaced by underscores followed by an
underscore and the index, keeps the first six hex digits of the digest, and
appends an underscore, kp and the zero-padded two-digit index.  The Python
builtins it uses live outside src/ and are embedded from their documented
behaviour: str.lower (modelled on its ASCII case mapping; the theorems below
are applied to ASCII inputs only), the space-to-underscore str.replace, UTF-8
str.encode, the two-digit zero-padded integer format, and hashlib.md5
(RFC 1321). -/

/-- ASCII case mapping of str.lower: A-Z to a-z, other characters kept. -/
def pyLowerChar (c : Char) : Char :=
  if 'A' ≤ c ∧ c ≤ 'Z' then Char.ofNat (c.toNat + 32) else c

/-- str.lower on an ASCII string. -/
def pyLower (s : List Char) : List Char := s.map pyLowerChar

/-- str.replace of each space by an underscore. -/
def underscoreSpaces (s : List Char) : List Char :=
  s.map (fun c => if c = ' ' then '_' else c)

/-- Every character of the string is ASCII (the regime in which pyLower
agrees with Python's Unicode str.lower). -/
def allAscii (s : List Char) : Bool := s.all (fun c => decide (c.toNat < 128))

/-- str.encode(): UTF-8 bytes of the string. -/
def utf8Encode : List Char → List ℕ
  | [] => []
  | c :: rest =>
    let n := c.toNat
    (if n < 128 then [n]
     else if n < 2048 then [192 + n / 64, 128 + n % 64]
     else if n < 65536 then [224 + n / 4096, 128 + n / 64 % 64, 128 + n % 64]
     else [240 + n / 262144, 128 + n / 4096 % 64, 128 + n / 64 % 64, 128 + n % 64])
    ++ utf8Encode rest

/-- Reduction to a 32-bit word. -/
def w32 (n : ℕ) : ℕ := n % 4294967296

/-- Left rotation of a 32-bit word. -/
def rotl32 (x : ℕ) (s : ℕ) : ℕ :=
  w32 (x <<< s) + (w32 x) >>> (32 - s)

/-- MD5 round constants K (RFC 1321). -/
def md5K : List ℕ :=
  [0xd76aa478, 0xe8c7b756, 0x242070db, 0xc1bdceee,
   0xf57c0faf, 0x4787c62a, 0xa8304613, 0xfd469501,
   0x698098d8, 0x8b44f7af, 0xffff5bb1, 0x895cd7be,
   0x6b901122, 0xfd987193, 0xa679438e, 0x49b40821,
   0xf61e2562, 0xc040b340, 0x265e5a51, 0xe9b6c7aa,
   0xd62f105d, 0x02441453, 0xd8a1e681, 0xe7d3fbc8,
   0x21e1cde6, 0xc33707d6, 0xf4d50d87, 0x455a14ed,
   0xa9e3e905, 0xfcefa3f8, 0x676f02d9, 0x8d2a4c8a,
   0xfffa3942, 0x8771f681, 0x6d9d6122, 0xfde5380c,
   0xa4beea44, 0x4bdecfa9, 0xf6bb4b60, 0xbebfbc70,
   0x289b7ec6, 0xeaa127fa, 0xd4ef3085, 0x04881d05,
   0xd9d4d039, 0xe6db99e5, 0x1fa27cf8, 0xc4ac5665,
   0xf4292244, 0x432aff97, 0xab9423a7, 0xfc93a039,
   0x655b59c3, 0x8f0ccc92, 0xffeff47d, 0x85845dd1,
   0x6fa87e4f, 0xfe2ce6e0, 0xa3014314, 0x4e0811a1,
   0xf7537e82, 0xbd3af235, 0x2ad7d2bb, 0xeb86d391]

/-- MD5 per-round left-rotation amounts. -/
def md5S : List ℕ :=
  [7, 12, 17, 22, 7, 12, 17, 22, 7, 12, 17, 22, 7, 12, 17, 22,
   5, 9, 14, 20, 5, 9, 14, 20, 5, 9, 14, 20, 5, 9, 14, 20,
   4, 11, 16, 23, 4, 11, 16, 23, 4, 11, 16, 23, 4, 11, 16, 23,
   6, 10, 15, 21, 6, 10, 15, 21, 6, 10, 15, 21, 6, 10, 15, 21]

/-- One MD5 round on the state (A, B, C, D), with M the chunk words. -/
def md5Round (M : ℕ → ℕ) (st : ℕ × ℕ × ℕ × ℕ) (i : ℕ) : ℕ × ℕ × ℕ × ℕ :=
  let A := st.1
  let B := st.2.1
  let C := st.2.2.1
  let D := st.2.2.2
  let fg : ℕ × ℕ :=
    if i < 16 then ((B &&& C) ||| ((B ^^^ 0xffffffff) &&& D), i)
    else if i < 32 then ((D &&& B) ||| ((D ^^^ 0xffffffff) &&& C), (5 * i + 1) % 16)
    else if i < 48 then (B ^^^ C ^^^ D, (3 * i + 5) % 16)
    else (C ^^^ (B ||| (D ^^^ 0xffffffff)), (7 * i) % 16)
  let f := w32 (fg.1 + A + md5K.getD i 0 + M fg.2)
  (D, w32 (B + rotl32 f (md5S.getD i 0)), B, C)

/-- Word j of a 64-byte chunk, little-endian. -/
def leWord (bs : List ℕ) (j : ℕ) : ℕ :=
  bs.getD (4 * j) 0 + 256 * bs.getD (4 * j + 1) 0
    + 65536 * bs.getD (4 * j + 2) 0 + 16777216 * bs.getD (4 * j + 3) 0

/-- Process one 512-bit chunk: 64 rounds, then add into the state. -/
def md5Chunk (st : ℕ × ℕ × ℕ × ℕ) (chunk : List ℕ) : ℕ × ℕ × ℕ × ℕ :=
  let r := (List.range 64).foldl (md5Round (leWord chunk)) st
  (w32 (st.1 + r.1), w32 (st.2.1 + r.2.1),
   w32 (st.2.2.1 + r.2.2.1), w32 (st.2.2.2 + r.2.2.2))

/-- The k little-endian bytes of a value. -/
def leBytes : ℕ → ℕ → List ℕ
  | 0, _ => []
  | k + 1, v => v % 256 :: leBytes k (v / 256)

/-- MD5 padding: a 0x80 byte, zeros to 56 mod 64, the bit length in 64
bits little-endian. -/
def md5Pad (msg : List ℕ) : List ℕ :=
  msg ++ 128 :: List.replicate ((56 + 64 - (msg.length + 1) % 64) % 64) 0
    ++ leBytes 8 (8 * msg.length % 18446744073709551616)

/-- Split a byte list into 64-byte chunks (fuel-driven). -/
def chunks64 : ℕ → List ℕ → List (List ℕ)
  | 0, _ => []
  | _ + 1, [] => []
  | fuel + 1, bs => bs.take 64 :: chunks64 fuel (bs.drop 64)

/-- Two lowercase hex digits of a byte. -/
def hexByte (b : ℕ) : List Char := [hexChar (b / 16), hexChar (b % 16)]

/-- hashlib.md5(msg).hexdigest(): the 32 lowercase hex digits of the MD5
digest of the byte list (checked against hashlib on reference inputs,
including the RFC test value md5("abc") = 900150983cd24fb0d6963f7d28e17f72). -/
def md5hex (msg : List ℕ) : List Char :=
  let p := md5Pad msg
  let st := (chunks64 p.length p).foldl md5Chunk
    (0x67452301, 0xefcdab89, 0x98badcfe, 0x10325476)
  ((leBytes 4 st.1 ++ leBytes 4 st.2.1 ++ leBytes 4 st.2.2.1
    ++ leBytes 4 st.2.2.2).map hexByte).flatten

/-- Python two-digit zero-padded integer formatting: at width 2 a single
digit is zero-padded, anything longer (including every negative value,
whose sign makes it at least two characters) is the plain decimal form. -/
def format02d (n : ℤ) : List Char :=
  let s := intRepr n
  if s.length < 2 then '0' :: s else s

/-- OpenAIService._generate_deterministic_kp_id. -/
def generate_deterministic_kp_id (board : List Char) (grade : ℤ)
    (subject chapter : List Char) (kp_index : ℤ) : List Char :=
  let pre := pyLower board ++ intRepr grade
    ++ '_' :: underscoreSpaces (pyLower subject)
  let content := underscoreSpaces (pyLower chapter) ++ '_' :: intRepr kp_index
  let hd6 := (md5hex (utf8Encode content)).take 6
  pre ++ '_' :: hd6 ++ '_' :: 'k' :: 'p' :: format02d kp_index

/-- C4 (amended): the knowledge-point id generator is a pure function of
its five inputs, and its value depends on them only through the
lowercased board, the grade, the lowercased space-to-underscore
normalized subject and chapter, and the index: any two input tuples
that agree after this normalization produce the same identifier.  The
converse direction of the claim fails: see the counterexample, where
two different boards give the same id with no hash collision involved. -/
theorem C4_kp_id_normalized (b1 b2 : List Char) (g : ℤ)
    (s1 s2 c1 c2 : List Char) (i : ℤ)
    (ha : allAscii (b1 ++ b2 ++ s1 ++ s2 ++ c1 ++ c2) = true)
    (hb : pyLower b1 = pyLower b2)
    (hs : underscoreSpaces (pyLower s1) = underscoreSpaces (pyLower s2))
    (hc : underscoreSpaces (pyLower c1) = underscoreSpaces (pyLower c2)) :
    generate_deterministic_kp_id b1 g s1 c1 i
      = generate_deterministic_kp_id b2 g s2 c2 i := by
  simp only [generate_deterministic_kp_id, hb, hs, hc]

set_option maxRecDepth 100000 in
/-- Witness for C4_kp_id_normalized: concrete ASCII inputs differing in
case and spacing normalize identically, and the produced identifiers
coincide. -/
theorem C4_kp_id_normalized_witness :
    (allAscii ("CBSE".data ++ "cbse".data ++ "Social Science".data
        ++ "SOCIAL SCIENCE".data ++ "Light and Sound".data
        ++ "light and sound".data) = true
     ∧ pyLower "CBSE".data = pyLower "cbse".data
     ∧ underscoreSpaces (pyLower "Social Science".data)
        = underscoreSpaces (pyLower "SOCIAL SCIENCE".data)
     ∧ underscoreSpaces (pyLower "Light and Sound".data)
        = underscoreSpaces (pyLower "light and sound".data))
    ∧ generate_deterministic_kp_id "CBSE".data 10 "Social Science".data
        "Light and Sound".data 3
      = generate_deterministic_kp_id "cbse".data 10 "SOCIAL SCIENCE".data
        "light and sound".data 3 :=
  ⟨⟨by decide, by decide, by decide, by decide⟩,
   C4_kp_id_normalized "CBSE".data "cbse".data 10 "Social Science".data
     "SOCIAL SCIENCE".data "Light and Sound".data "light and sound".data 3
     (by decide) (by decide) (by decide) (by decide)⟩

set_option maxRecDepth 100000 in
/-- Counterexample to the injectivity half of C4: changing the board from
"CBSE" to "Cbse" (no hash collision: the hashed content is the identical
chapter-and-index string) leaves the identifier unchanged, because the
board is lowercased before use. -/
theorem C4_board_case_counterexample :
    generate_deterministic_kp_id "CBSE".data 10 "Math".data "Algebra".data 1
      = generate_deterministic_kp_id "Cbse".data 10 "Math".data "Algebra".data 1
    ∧ "CBSE".data ≠ "Cbse".data := by
  constructor
  · decide
  · decide
/-- C2: on the serialization of a well-formed value containing no triple
backtick, extract_json_from_response succeeds with the value itself and
no error, whether the serialization is given bare or wrapped in a
```json fenced block.  (The backtick restriction is necessary: see the
counterexample.) -/
theorem C2_serialize_roundtrip (v : Json) (hwf : wfJson v = true)
    (hnt : hasTriple (dumps v) = false) :
    extract_json_from_response (dumps v) = some (true, v, none)
    ∧ extract_json_from_response
        (lchars "```json\n" ++ dumps v ++ lchars "\n```")
      = some (true, v, none) := by
  obtain ⟨c, cs, hceq, _⟩ := dumps_head v
  constructor
  · rw [extract_json_from_response, if_neg (by rw [hceq]; simp)]
    rw [extractCandidate_dumps v hnt, loads_dumps v hwf]
    rfl
  · have hne : lchars "```json\n" ++ dumps v ++ lchars "\n```" ≠ [] := by
      rw [show lchars "```json\n" = ['`', '`', '`', 'j', 's', 'o', 'n', '\n'] from rfl]
      simp
    rw [extract_json_from_response, if_neg hne]
    rw [extractCandidate_fenced v hnt, loads_dumps v hwf]
    rfl

/-- Counterexample to the unconditional C2 round trip: a JSON string
value containing triple backticks serializes to text in which the fence
regex finds a match, so the extraction parses the inner group instead of
the whole serialization and fails. -/
theorem C2_fence_counterexample :
    wfJson (.str "a```b```c".data) = true
    ∧ extract_json_from_response (dumps (.str "a```b```c".data))
        = some (false, .str (dumps (.str "a```b```c".data)),
                some "JSON parsing failed: Expecting value") := by
  constructor
  · decide
  · decide

/-- Witness for C2_serialize_roundtrip at the object value parsed from
the text of an object with one key. -/
theorem C2_serialize_roundtrip_witness :
    (wfJson (Json.obj (.cons "a".data (.num 1) .nil)) = true
     ∧ hasTriple (dumps (Json.obj (.cons "a".data (.num 1) .nil))) = false)
    ∧ (extract_json_from_response (dumps (Json.obj (.cons "a".data (.num 1) .nil)))
        = some (true, Json.obj (.cons "a".data (.num 1) .nil), none)
       ∧ extract_json_from_response
           (lchars "```json\n" ++ dumps (Json.obj (.cons "a".data (.num 1) .nil))
             ++ lchars "\n```")
        = some (true, Json.obj (.cons "a".data (.num 1) .nil), none)) :=
  ⟨⟨by decide, by decide⟩, C2_serialize_roundtrip _ (by decide) (by decide)⟩

/-- C5: whenever both parse attempts fail with a decode error (and the
input is nonempty), extract_json_from_response returns success = false,
the raw input as the value under fallback_to_raw = true and null
otherwise, and a nonempty message naming the parse failure; no exception
escapes (the except clauses produce this return value). -/
theorem C5_failure_triple (raw : List Char) (fb : Bool) (e1 e2 : String)
    (hne : raw ≠ [])
    (hA : loads (extractCandidate raw) = .error (.fail e1))
    (hB : loads (clean_json_content (extractCandidate raw)) = .error (.fail e2)) :
    extract_json_from_response raw none fb
      = some (false, (if fb then Json.str raw else Json.null),
              some ("JSON parsing failed: " ++ e2))
    ∧ ("JSON parsing failed: " ++ e2) ≠ "" := by
  constructor
  · rw [extract_json_from_response, if_neg hne, hA, hB]
  · intro hcon
    have hlen := congrArg String.length hcon
    rw [String.length_append] at hlen
    rw [show ("JSON parsing failed: " : String).length = 21 from rfl,
      show ("" : String).length = 0 from rfl] at hlen
    omega

/-- Witness for C5_failure_triple on a non-JSON input. -/
theorem C5_failure_triple_witness :
    ("not json \x7b\x7b".data ≠ []
     ∧ loads (extractCandidate "not json \x7b\x7b".data)
        = .error (.fail "Expecting value")
     ∧ loads (clean_json_content (extractCandidate "not json \x7b\x7b".data))
        = .error (.fail "Expecting value"))
    ∧ (extract_json_from_response "not json \x7b\x7b".data none true
        = some (false, Json.str "not json \x7b\x7b".data,
                some ("JSON parsing failed: " ++ "Expecting value"))
       ∧ ("JSON parsing failed: " ++ "Expecting value") ≠ "") := by
  refine ⟨⟨by decide, by decide, by decide⟩, ?_⟩
  have h := C5_failure_triple "not json \x7b\x7b".data true
    "Expecting value" "Expecting value" (by decide) (by decide) (by decide)
  exact ⟨h.1, h.2⟩

/-- C6: when the direct parse of the extracted candidate fails, one
cleanup pass is applied and parsing is retried exactly once: if the
retry succeeds its value is returned as a success (first conjunct; the
two-failure case of C5 shows no further attempt happens); and the fenced
input with a trailing comma from the specification parses to the object
with key a and value 1 (second conjunct). -/
theorem C6_single_cleanup_retry :
    (∀ (raw : List Char) (fb : Bool) (e1 : String) (parsed : Json), raw ≠ [] →
      loads (extractCandidate raw) = .error (.fail e1) →
      loads (clean_json_content (extractCandidate raw)) = .ok parsed →
      extract_json_from_response raw none fb = some (true, parsed, none))
    ∧ extract_json_from_response "```json\n\x7b\x22a\x22:1,\x7d\n```".data
        = some (true, .obj (.cons "a".data (.num 1) .nil), none) := by
  constructor
  · intro raw fb e1 parsed hne h1 h2
    rw [extract_json_from_response, if_neg hne, h1, h2]
    rfl
  · decide

/-- Witness for the universally quantified conjunct of
C6_single_cleanup_retry, at the trailing-comma object. -/
theorem C6_single_cleanup_retry_witness :
    ("\x7b\x22a\x22:1,\x7d".data ≠ []
     ∧ loads (extractCandidate "\x7b\x22a\x22:1,\x7d".data)
        = .error (.fail "Expecting property name enclosed in double quotes")
     ∧ loads (clean_json_content (extractCandidate "\x7b\x22a\x22:1,\x7d".data))
        = .ok (.obj (.cons "a".data (.num 1) .nil)))
    ∧ extract_json_from_response "\x7b\x22a\x22:1,\x7d".data none true
        = some (true, .obj (.cons "a".data (.num 1) .nil), none) :=
  ⟨⟨by decide, by decide, by decide⟩,
   C6_single_cleanup_retry.1 _ true
     "Expecting property name enclosed in double quotes" _
     (by decide) (by decide) (by decide)⟩

/-- C7: when metadata is supplied and the parse yields an object, the
result is the shallow merge with metadata as base and parsed keys
winning on conflict: looking up any key in the merged dict gives the
parsed value when the key is in the parsed object, else the metadata
value.  (The counterexample shows the non-object case raises a TypeError
inside Python's merge, caught into a failure triple, so success requires
an object.) -/
theorem C7_metadata_merge (raw : List Char) (md : JsonObj) (fb : Bool)
    (o : JsonObj) (hne : raw ≠ [])
    (hok : loads (extractCandidate raw) = .ok (.obj o)) :
    extract_json_from_response raw (some md) fb
      = some (true, .obj (merge_dicts md o), none)
    ∧ (wfObj o = true → ∀ k, objGet (merge_dicts md o) k
        = (match objGet o k with
           | some x => some x
           | none => objGet md k)) := by
  constructor
  · rw [extract_json_from_response, if_neg hne, hok]
    rfl
  · intro hwfo k
    exact objGet_merge o md k hwfo

/-- Counterexample to unconditional C7: a successful parse to a
non-dict value (here the integer 1) with metadata supplied makes the
merge raise TypeError, which the blanket except clause turns into a
failure triple instead of a merged success. -/
theorem C7_nondict_counterexample :
    extract_json_from_response "1".data
        (some (.cons "a".data (.num 0) (.cons "b".data (.num 2) .nil))) true
      = some (false, .str "1".data,
          some "Unexpected error during JSON parsing: 'int' object is not a mapping") := by
  decide

/-- Witness for C7_metadata_merge at the specification's example:
parsing the object with a = 1 under metadata a = 0, b = 2 merges to
a = 1, b = 2. -/
theorem C7_metadata_merge_witness :
    ("\x7b\x22a\x22:1\x7d".data ≠ []
     ∧ loads (extractCandidate "\x7b\x22a\x22:1\x7d".data)
        = .ok (.obj (.cons "a".data (.num 1) .nil)))
    ∧ (extract_json_from_response "\x7b\x22a\x22:1\x7d".data
          (some (.cons "a".data (.num 0) (.cons "b".data (.num 2) .nil))) true
        = some (true, .obj (merge_dicts
            (.cons "a".data (.num 0) (.cons "b".data (.num 2) .nil))
            (.cons "a".data (.num 1) .nil)), none)
       ∧ (wfObj (JsonObj.cons "a".data (.num 1) .nil) = true →
          ∀ k, objGet (merge_dicts
              (.cons "a".data (.num 0) (.cons "b".data (.num 2) .nil))
              (.cons "a".data (.num 1) .nil)) k
            = (match objGet (JsonObj.cons "a".data (.num 1) .nil) k with
               | some x => some x
               | none => objGet (JsonObj.cons "a".data (.num 0)
                   (.cons "b".data (.num 2) .nil)) k)))
    ∧ merge_dicts (.cons "a".data (.num 0) (.cons "b".data (.num 2) .nil))
        (.cons "a".data (.num 1) .nil)
      = .cons "a".data (.num 1) (.cons "b".data (.num 2) .nil) :=
  ⟨⟨by decide, by decide⟩,
   C7_metadata_merge "\x7b\x22a\x22:1\x7d".data
     (.cons "a".data (.num 0) (.cons "b".data (.num 2) .nil)) true
     (.cons "a".data (.num 1) .nil) (by decide) (by decide),
   by decide⟩

end SchoolAI
